import Mathlib

/-!
Verification of `structure_mp.py`, a multi-processing STRUCTURE wrapper for
RAD-seq data.  The Python source is embedded shallowly: every function under
scrutiny is translated into an executable Lean definition (loops become
structural recursions carrying the same state variables, Python dicts become
total functions or association lists, fallible code returns `Option`), and
the specification's claims about those functions are stated and proved as
theorems about the embedding.

Conventions used throughout:
* a VCF record is a structure carrying `CHROM`, `POS` and the per-individual
  genotype call (`gt_bases`, which may be absent, hence `Option String`);
* the pseudo-random draws of `random.randint(0, n - 1)` are modelled by an
  oracle `Nat → Nat → Nat` mapping (draw counter, n) to an index, quantified
  over all oracles satisfying the `randint` contract `0 < n → oracle c n < n`;
* text files are lists of lines (`List String`), and the filesystem consumed
  by the CLUMPP input harvester is a function from filename to contents.
-/

/- ### Decimal representation of naturals

`structure_mp.py` embeds integers (positions, timestamps, K values) into
strings via `str.format`.  To reason about distinctness of the resulting
strings we need that Lean's `Nat.repr` (decimal printing, the meaning of
`{}`.format for a non-negative int) is injective and produces digit
characters only.  Lean core defines `Nat.repr` through the fuel-based
`Nat.toDigitsCore`; we relate it to a structurally recursive function. -/

/-- Decimal digits of a natural number, most significant first. -/
def natDigits (n : Nat) : List Char :=
  if n < 10 then [Nat.digitChar n]
  else natDigits (n / 10) ++ [Nat.digitChar (n % 10)]
termination_by n
decreasing_by exact Nat.div_lt_self (by omega) (by omega)

theorem toDigitsCore_eq (fuel n : Nat) (ds : List Char) (h : n < fuel) :
    Nat.toDigitsCore 10 fuel n ds = natDigits n ++ ds := by
  induction fuel generalizing n ds with
  | zero => omega
  | succ fuel ih =>
    have step : Nat.toDigitsCore 10 (fuel+1) n ds =
        if n / 10 = 0 then Nat.digitChar (n % 10) :: ds
        else Nat.toDigitsCore 10 fuel (n / 10) (Nat.digitChar (n % 10) :: ds) := rfl
    rw [step]
    by_cases h10 : n / 10 = 0
    · rw [if_pos h10, natDigits, if_pos (by omega : n < 10),
        Nat.mod_eq_of_lt (by omega : n < 10)]
      rfl
    · rw [if_neg h10,
        show natDigits n = natDigits (n / 10) ++ [Nat.digitChar (n % 10)] from by
          rw [natDigits, if_neg (by omega : ¬ n < 10)],
        ih (n / 10) _ (by omega)]
      simp

theorem repr_data (n : Nat) : (Nat.repr n).data = natDigits n := by
  show (Nat.toDigits 10 n).asString.data = natDigits n
  rw [Nat.toDigits, toDigitsCore_eq (n+1) n [] (by omega)]
  simp [List.asString]

theorem natDigits_digit (n : Nat) : ∀ c ∈ natDigits n, 47 < c.toNat ∧ c.toNat < 58 := by
  induction n using Nat.strong_induction_on with
  | _ n ih =>
    rw [natDigits]
    by_cases h : n < 10
    · simp only [h, if_true, List.mem_singleton]
      rintro c rfl
      interval_cases n <;> decide
    · simp only [h, if_false, List.mem_append, List.mem_singleton]
      rintro c (hc | rfl)
      · exact ih (n / 10) (Nat.div_lt_self (by omega) (by omega)) c hc
      · have : n % 10 < 10 := Nat.mod_lt _ (by omega)
        interval_cases h10 : n % 10 <;> simp_all <;> decide

/-- Evaluate a digit string back to the natural number it denotes. -/
def parseDigits (l : List Char) : Nat := l.foldl (fun a c => 10 * a + (c.toNat - 48)) 0

theorem parse_fold (n : Nat) : ∀ a : Nat,
    (natDigits n).foldl (fun a c => 10 * a + (c.toNat - 48)) a
      = a * 10 ^ (natDigits n).length + n := by
  induction n using Nat.strong_induction_on with
  | _ n ih =>
    intro a
    rw [natDigits]
    by_cases h : n < 10
    · simp only [h, if_true, List.foldl_cons, List.foldl_nil, List.length_singleton]
      have : (Nat.digitChar n).toNat = 48 + n := by interval_cases n <;> decide
      rw [this, pow_one]
      omega
    · simp only [h, if_false, List.foldl_append, List.foldl_cons, List.foldl_nil,
        List.length_append, List.length_singleton]
      rw [ih (n / 10) (Nat.div_lt_self (by omega) (by omega)) a]
      have h10 : n % 10 < 10 := Nat.mod_lt _ (by omega)
      have : (Nat.digitChar (n % 10)).toNat = 48 + n % 10 := by
        interval_cases hm : n % 10 <;> decide
      rw [this]
      have hmod := Nat.div_add_mod n 10
      ring_nf
      omega

theorem parse_natDigits (n : Nat) : parseDigits (natDigits n) = n := by
  unfold parseDigits
  rw [parse_fold n 0]
  simp

theorem natRepr_injective : Function.Injective Nat.repr := by
  intro m n h
  have hd : natDigits m = natDigits n := by
    have := congrArg String.data h
    rwa [repr_data, repr_data] at this
  have := congrArg parseDigits hd
  rwa [parse_natDigits, parse_natDigits] at this

theorem underscore_not_mem_natDigits (n : Nat) : '_' ∉ natDigits n := by
  intro h
  have h1 := (natDigits_digit n '_' h).2
  have h2 : ('_').toNat = 95 := by decide
  omega

/-- Splitting a list at a separator occurring in neither of the two side
lists is unambiguous. -/
theorem append_sep_inj {α} (sep : α) : ∀ (u v w z : List α), sep ∉ u → sep ∉ w →
    u ++ sep :: v = w ++ sep :: z → u = w ∧ v = z := by
  intro u
  induction u with
  | nil =>
    intro v w z _ hw h
    cases w with
    | nil => simpa using h
    | cons a w' =>
      simp only [List.nil_append, List.cons_append, List.cons.injEq] at h
      rw [h.1] at hw
      exact absurd (List.mem_cons_self a w') hw
  | cons a u' ih =>
    intro v w z hu hw h
    cases w with
    | nil =>
      simp only [List.cons_append, List.nil_append, List.cons.injEq] at h
      rw [← h.1] at hu
      exact absurd (List.mem_cons_self a u') hu
    | cons b w' =>
      simp only [List.cons_append, List.cons.injEq] at h
      obtain ⟨rfl, h2⟩ := h
      have := ih v w' z (fun hm => hu (List.mem_cons_of_mem _ hm))
        (fun hm => hw (List.mem_cons_of_mem _ hm)) h2
      exact ⟨by rw [this.1], this.2⟩

/- ### Python string primitives

Lean's `String.trim`, `String.take` and the `String` order are defined
through byte positions and do not reduce inside the kernel; the script's
`str.strip()`, slicing and `sorted` are therefore modelled directly on the
character lists, with Python's semantics (code-point comparison, whitespace
stripping at both ends). -/

/-- Python `str` whitespace (the characters stripped by `strip()`). -/
def isPyWhitespace (c : Char) : Bool :=
  c = ' ' || c = '\t' || c = '\n' || c = '\r' || c = '\x0b' || c = '\x0c'

/-- Python `s.strip()`: drop whitespace from both ends. -/
def pyStrip (s : String) : String :=
  ⟨((s.data.dropWhile isPyWhitespace).reverse.dropWhile isPyWhitespace).reverse⟩

/-- Python `s[:n]`: the first `n` characters. -/
def pyTake (s : String) (n : Nat) : String := ⟨s.data.take n⟩

/-- Lexicographic comparison of character lists by code point, Python's
string `<=`. -/
def charListLe : List Char → List Char → Bool
  | [], _ => true
  | _ :: _, [] => false
  | a :: as, b :: bs =>
      if a.toNat < b.toNat then true
      else if b.toNat < a.toNat then false
      else charListLe as bs

/-- Python string comparison `a <= b`. -/
def pyLe (a b : String) : Prop := charListLe a.data b.data = true

instance : DecidableRel pyLe := fun a b =>
  inferInstanceAs (Decidable (charListLe a.data b.data = true))

theorem charListLe_total : ∀ (as bs : List Char),
    charListLe as bs = true ∨ charListLe bs as = true := by
  intro as
  induction as with
  | nil => intro bs; exact Or.inl rfl
  | cons a as ih =>
    intro bs
    cases bs with
    | nil => exact Or.inr rfl
    | cons b bs =>
      by_cases hab : a.toNat < b.toNat
      · exact Or.inl (by rw [charListLe, if_pos hab])
      · by_cases hba : b.toNat < a.toNat
        · exact Or.inr (by rw [charListLe, if_pos hba])
        · rcases ih bs with h | h
          · exact Or.inl (by rw [charListLe, if_neg hab, if_neg hba]; exact h)
          · exact Or.inr (by rw [charListLe, if_neg hba, if_neg hab]; exact h)

theorem charListLe_trans : ∀ (as bs cs : List Char),
    charListLe as bs = true → charListLe bs cs = true →
    charListLe as cs = true := by
  intro as
  induction as with
  | nil => intro bs cs _ _; rfl
  | cons a as ih =>
    intro bs cs hab hbc
    cases bs with
    | nil => rw [charListLe] at hab; cases hab
    | cons b bs =>
      cases cs with
      | nil => rw [charListLe] at hbc; cases hbc
      | cons c cs =>
        rw [charListLe] at hab hbc ⊢
        by_cases h1 : a.toNat < b.toNat <;> by_cases h2 : b.toNat < c.toNat
        · rw [if_pos (by omega : a.toNat < c.toNat)]
        · rw [if_neg h2] at hbc
          by_cases h3 : c.toNat < b.toNat
          · rw [if_pos h3] at hbc; cases hbc
          · rw [if_pos (by omega : a.toNat < c.toNat)]
        · rw [if_neg h1] at hab
          by_cases h3 : b.toNat < a.toNat
          · rw [if_pos h3] at hab; cases hab
          · rw [if_pos (by omega : a.toNat < c.toNat)]
        · rw [if_neg h1] at hab
          by_cases h3 : b.toNat < a.toNat
          · rw [if_pos h3] at hab; cases hab
          · rw [if_neg h3] at hab
            rw [if_neg h2] at hbc
            by_cases h4 : c.toNat < b.toNat
            · rw [if_pos h4] at hbc; cases hbc
            · rw [if_neg h4] at hbc
              rw [if_neg (by omega : ¬ a.toNat < c.toNat),
                if_neg (by omega : ¬ c.toNat < a.toNat)]
              exact ih bs cs hab hbc

instance : IsTotal String pyLe :=
  ⟨fun a b => charListLe_total a.data b.data⟩

instance : IsTrans String pyLe :=
  ⟨fun a b c => charListLe_trans a.data b.data c.data⟩

/- ### Data model

A VCF record as consumed by the script: `record.CHROM`, `record.POS`
and `record.genotype(indiv).gt_bases` (the latter `None`-able). -/

structure VcfRecord where
  CHROM : String
  POS : Nat
  genotypes : String → Option String

/-- Locus key built by the script as `'{0}_{1}'.format(record.CHROM, record.POS)`. -/
def snpKey (r : VcfRecord) : String := r.CHROM ++ "_" ++ Nat.repr r.POS

/-- Keys of two records agree exactly when CHROM and POS agree: the decimal
digits of POS contain no underscore, so the split at the last underscore of
the key is unambiguous. -/
theorem snpKey_inj {r₁ r₂ : VcfRecord} (h : snpKey r₁ = snpKey r₂) :
    r₁.CHROM = r₂.CHROM ∧ r₁.POS = r₂.POS := by
  have hdata := congrArg String.data h
  simp only [snpKey, String.data_append] at hdata
  have h1 : r₁.CHROM.data ++ '_' :: (Nat.repr r₁.POS).data
      = r₂.CHROM.data ++ '_' :: (Nat.repr r₂.POS).data := by
    simpa [show ("_" : String).data = ['_'] from rfl] using hdata
  have hrev := congrArg List.reverse h1
  simp only [List.reverse_append, List.reverse_cons] at hrev
  have hrev' : (Nat.repr r₁.POS).data.reverse ++ '_' :: r₁.CHROM.data.reverse
      = (Nat.repr r₂.POS).data.reverse ++ '_' :: r₂.CHROM.data.reverse := by
    simpa [List.append_assoc] using hrev
  have hnu₁ : '_' ∉ (Nat.repr r₁.POS).data.reverse := by
    rw [List.mem_reverse, repr_data]; exact underscore_not_mem_natDigits _
  have hnu₂ : '_' ∉ (Nat.repr r₂.POS).data.reverse := by
    rw [List.mem_reverse, repr_data]; exact underscore_not_mem_natDigits _
  obtain ⟨hp, hc⟩ := append_sep_inj '_' _ _ _ _ hnu₁ hnu₂ hrev'
  have hpos : r₁.POS = r₂.POS := by
    apply natRepr_injective
    have := congrArg List.reverse hp
    simp only [List.reverse_reverse] at this
    exact String.ext this
  have hchrom : r₁.CHROM = r₂.CHROM := by
    have := congrArg List.reverse hc
    simp only [List.reverse_reverse] at this
    exact String.ext this
  exact ⟨hchrom, hpos⟩

/- ### Genotype conversion (`GENOTYPE_CONVERSION`, `get_structure_genotype`)

The Python table `{'A': '10', 'T': '11', 'G': '12', 'C': '13', '.': '-9'}`
raises `KeyError` on any other symbol; lookup is therefore `Option`-valued. -/

def GENOTYPE_CONVERSION (c : Char) : Option String :=
  if c = 'A' then some "10"
  else if c = 'T' then some "11"
  else if c = 'G' then some "12"
  else if c = 'C' then some "13"
  else if c = '.' then some "-9"
  else none

/-- Translation of `get_structure_genotype`: a falsy call (`None` or the
empty string) is replaced by `'./.'`; then characters 0 and 2 are pushed
through the conversion table.  A missing character (string too short) or a
symbol outside the table yields `none` (Python: `IndexError`/`KeyError`). -/
def get_structure_genotype (genotype : Option String) : Option (String × String) := do
  let g : String := match genotype with
    | none => "./."
    | some s => if s = "" then "./." else s
  let c0 ← g.data.get? 0
  let g1 ← GENOTYPE_CONVERSION c0
  let c2 ← g.data.get? 2
  let g2 ← GENOTYPE_CONVERSION c2
  pure (g1, g2)

/- ### Locus Sampler (`select_random_snps`)

The Python loop keeps a buffer `temp_SNPs` of the keys seen for the current
CHROM; on a CHROM change it appends, for every replicate, one randomly drawn
key from the buffer to that replicate's list, then restarts the buffer.  The
final buffer is never flushed.  The replicate dict is modelled as a total
function `String → List String` (the script only ever reads keys that are in
`replicates_IDs`); `random.randint(0, n - 1)` is modelled by `oracle c n`
where `c` counts the draws made so far. -/

/-- Translation of the inner `for replicate in replicates_IDs` loop performing
one draw per replicate from the buffered keys of the finished CHROM. -/
def appendDraws (oracle : Nat → Nat → Nat) (temp : List String) :
    List String → (String → List String) → Nat → (String → List String)
  | [], sel, _ => sel
  | rep :: more, sel, ctr =>
      appendDraws oracle temp more
        (fun s => if s = rep then sel s ++ [temp.getD (oracle ctr temp.length) ""] else sel s)
        (ctr + 1)

/-- Translation of the record loop of `select_random_snps`, carrying the
state (`selected_snps`, `temp_SNPs`, `previous_CHROM`, draw counter). -/
def selectGo (reps : List String) (oracle : Nat → Nat → Nat) :
    List VcfRecord → (String → List String) → List String → String → Nat →
      (String → List String)
  | [], sel, _, _, _ => sel
  | r :: rest, sel, temp, pr, ctr =>
      if pr ≠ "" ∧ pr ≠ r.CHROM then
        selectGo reps oracle rest (appendDraws oracle temp reps sel ctr)
          [snpKey r] r.CHROM (ctr + reps.length)
      else
        selectGo reps oracle rest sel (temp ++ [snpKey r]) r.CHROM ctr

/-- Translation of `select_random_snps`: dict initialised with an empty list
per replicate, then the record loop. -/
def select_random_snps (records : List VcfRecord) (reps : List String)
    (oracle : Nat → Nat → Nat) : String → List String :=
  selectGo reps oracle records (fun _ => []) [] "" 0

/-- Contigs encountered in the stream, in order, one entry per maximal run of
equal adjacent CHROM values. -/
def contigsGo : List VcfRecord → String → List String
  | [], _ => []
  | r :: rest, pr => if r.CHROM = pr then contigsGo rest pr
                     else r.CHROM :: contigsGo rest r.CHROM

/-- Contigs encountered in the stream (first record opens the first run). -/
def contigsOf : List VcfRecord → List String
  | [] => []
  | r :: rest => r.CHROM :: contigsGo rest r.CHROM

/-- Loci actually observed in the stream for a given contig, as locus keys. -/
def lociOfContig (records : List VcfRecord) (c : String) : List String :=
  (records.filter (fun r => r.CHROM == c)).map snpKey

/-- The stream is grouped contiguously by contig: no contig opens two runs. -/
def Chunked (records : List VcfRecord) : Prop := (contigsOf records).Nodup

/-- Number of buffer flushes (CHROM changes) performed by the record loop. -/
def flushCount : List VcfRecord → String → Nat
  | [], _ => 0
  | r :: rest, pr => if pr ≠ "" ∧ pr ≠ r.CHROM then flushCount rest r.CHROM + 1
                     else flushCount rest r.CHROM

/-- Buffered key groups that the record loop will flush, given the pending
buffer and previous CHROM; the final group (never flushed) is included. -/
def keyGroups : List VcfRecord → List String → String → List (List String)
  | [], temp, pr => if pr = "" then [] else [temp]
  | r :: rest, temp, pr =>
      if pr ≠ "" ∧ pr ≠ r.CHROM then temp :: keyGroups rest [snpKey r] r.CHROM
      else keyGroups rest (temp ++ [snpKey r]) r.CHROM

theorem appendDraws_not_mem (oracle : Nat → Nat → Nat) (temp : List String) :
    ∀ (reps : List String) (sel : String → List String) (ctr : Nat) (s : String),
    s ∉ reps → appendDraws oracle temp reps sel ctr s = sel s := by
  intro reps
  induction reps with
  | nil => intro sel ctr s _; rfl
  | cons rep more ih =>
    intro sel ctr s hs
    rw [appendDraws, ih _ _ _ (fun h => hs (List.mem_cons_of_mem _ h))]
    simp only [if_neg (show ¬ s = rep from fun h => hs (h ▸ List.mem_cons_self _ _))]

theorem appendDraws_mem (oracle : Nat → Nat → Nat) (temp : List String) :
    ∀ (reps : List String) (sel : String → List String) (ctr : Nat) (s : String),
    reps.Nodup → s ∈ reps →
    ∃ c, appendDraws oracle temp reps sel ctr s
        = sel s ++ [temp.getD (oracle c temp.length) ""] := by
  intro reps
  induction reps with
  | nil => intro sel ctr s _ hs; exact absurd hs (List.not_mem_nil s)
  | cons rep more ih =>
    intro sel ctr s hnd hs
    rw [appendDraws]
    by_cases hsr : s = rep
    · subst hsr
      have hnm : s ∉ more := (List.nodup_cons.mp hnd).1
      refine ⟨ctr, ?_⟩
      rw [appendDraws_not_mem oracle temp more _ _ _ hnm]
      simp
    · have hsm : s ∈ more := (List.mem_cons.mp hs).resolve_left hsr
      obtain ⟨c, hc⟩ := ih _ (ctr + 1) s (List.nodup_cons.mp hnd).2 hsm
      refine ⟨c, ?_⟩
      rw [hc]
      simp only [if_neg hsr]

theorem selectGo_length (reps : List String) (oracle : Nat → Nat → Nat)
    (hnd : reps.Nodup) :
    ∀ (rest : List VcfRecord) (sel : String → List String) (temp : List String)
      (pr : String) (ctr : Nat) (r : String), r ∈ reps →
    (selectGo reps oracle rest sel temp pr ctr r).length
      = (sel r).length + flushCount rest pr := by
  intro rest
  induction rest with
  | nil => intro sel temp pr ctr r _; simp [selectGo, flushCount]
  | cons rec' rest ih =>
    intro sel temp pr ctr r hr
    rw [selectGo, flushCount]
    by_cases hc : pr ≠ "" ∧ pr ≠ rec'.CHROM
    · rw [if_pos hc, if_pos hc, ih _ _ _ _ r hr]
      obtain ⟨c, hdraw⟩ := appendDraws_mem oracle temp reps sel ctr r hnd hr
      rw [hdraw]
      simp only [List.length_append, List.length_singleton]
      omega
    · rw [if_neg hc, if_neg hc, ih _ _ _ _ r hr]

theorem keyGroups_ne_nil : ∀ (rest : List VcfRecord) (temp : List String) (pr : String),
    pr ≠ "" → keyGroups rest temp pr ≠ [] := by
  intro rest
  induction rest with
  | nil => intro temp pr hpr; simp [keyGroups, hpr]
  | cons rec' rest ih =>
    intro temp pr hpr
    rw [keyGroups]
    by_cases hc : pr ≠ "" ∧ pr ≠ rec'.CHROM
    · rw [if_pos hc]; simp
    · rw [if_neg hc]
      have : rec'.CHROM = pr := by
        by_contra hne
        exact hc ⟨hpr, fun h => hne h.symm⟩
      exact ih _ _ (this ▸ hpr)

/-- Core invariant of the sampler loop: from any state, the loop extends each
replicate's list by one drawn key per flushed buffer group, and (for an
in-range oracle) each drawn key is a member of its group. -/
theorem selectGo_spec (reps : List String) (oracle : Nat → Nat → Nat)
    (hnd : reps.Nodup) (hor : ∀ c n, 0 < n → oracle c n < n) :
    ∀ (rest : List VcfRecord) (sel : String → List String) (temp : List String)
      (pr : String) (ctr : Nat) (r : String), r ∈ reps →
    (∀ rec ∈ rest, rec.CHROM ≠ "") → (pr ≠ "" → temp ≠ []) →
    ∃ tail, selectGo reps oracle rest sel temp pr ctr r = sel r ++ tail ∧
      tail.length = (keyGroups rest temp pr).length - 1 ∧
      ∀ j (hj : j < tail.length), tail.get ⟨j, hj⟩ ∈ (keyGroups rest temp pr).getD j [] := by
  intro rest
  induction rest with
  | nil =>
    intro sel temp pr ctr r _ _ _
    refine ⟨[], by simp [selectGo], ?_, ?_⟩
    · rw [keyGroups]
      by_cases hpr : pr = "" <;> simp [hpr]
    · intro j hj; simp at hj
  | cons rec' rest ih =>
    intro sel temp pr ctr r hr hne htemp
    rw [selectGo, keyGroups]
    by_cases hc : pr ≠ "" ∧ pr ≠ rec'.CHROM
    · rw [if_pos hc, if_pos hc]
      have hchrom : rec'.CHROM ≠ "" := hne rec' (List.mem_cons_self _ _)
      obtain ⟨c, hdraw⟩ := appendDraws_mem oracle temp reps sel ctr r hnd hr
      obtain ⟨tail', heq', hlen', hmem'⟩ :=
        ih (appendDraws oracle temp reps sel ctr) [snpKey rec'] rec'.CHROM
          (ctr + reps.length) r hr (fun rec'' h => hne rec'' (List.mem_cons_of_mem _ h))
          (fun _ => by simp)
      have hgs := keyGroups_ne_nil rest [snpKey rec'] rec'.CHROM hchrom
      refine ⟨temp.getD (oracle c temp.length) "" :: tail', ?_, ?_, ?_⟩
      · rw [heq', hdraw]
        simp
      · simp only [List.length_cons, hlen']
        have : (keyGroups rest [snpKey rec'] rec'.CHROM).length ≠ 0 :=
          fun h => hgs (List.length_eq_zero.mp h)
        omega
      · intro j hj
        match j with
        | 0 =>
          have htne : temp ≠ [] := htemp hc.1
          have hlt : oracle c temp.length < temp.length :=
            hor c temp.length (List.length_pos.mpr htne)
          show temp.getD (oracle c temp.length) ""
              ∈ (temp :: keyGroups rest [snpKey rec'] rec'.CHROM).getD 0 []
          rw [show (temp :: keyGroups rest [snpKey rec'] rec'.CHROM).getD 0 [] = temp from rfl,
            List.getD_eq_getElem temp "" hlt]
          exact List.getElem_mem hlt
        | j + 1 =>
          simp only [List.length_cons] at hj
          have := hmem' j (by omega)
          simpa using this
    · rw [if_neg hc, if_neg hc]
      have hchrom : rec'.CHROM ≠ "" := hne rec' (List.mem_cons_self _ _)
      exact ih sel (temp ++ [snpKey rec']) rec'.CHROM ctr r hr
        (fun rec'' h => hne rec'' (List.mem_cons_of_mem _ h)) (fun _ => by simp)

theorem mem_contigsGo : ∀ (rest : List VcfRecord) (pr : String) (rec'' : VcfRecord),
    rec'' ∈ rest → rec''.CHROM = pr ∨ rec''.CHROM ∈ contigsGo rest pr := by
  intro rest
  induction rest with
  | nil => intro pr rec'' h; exact absurd h (List.not_mem_nil _)
  | cons r rest ih =>
    intro pr rec'' h
    rw [contigsGo]
    by_cases hr : r.CHROM = pr
    · rw [if_pos hr]
      rcases List.mem_cons.mp h with rfl | h'
      · exact Or.inl hr
      · exact ih pr rec'' h'
    · rw [if_neg hr]
      rcases List.mem_cons.mp h with rfl | h'
      · exact Or.inr (List.mem_cons_self _ _)
      · rcases ih r.CHROM rec'' h' with heq | hmem
        · exact Or.inr (heq ▸ List.mem_cons_self _ _)
        · exact Or.inr (List.mem_cons_of_mem _ hmem)

/-- Under contiguous grouping, the buffered key groups are exactly the
per-contig key lists. -/
theorem keyGroups_eq : ∀ (rest : List VcfRecord) (temp : List String) (pr : String),
    pr ≠ "" → (∀ rec ∈ rest, rec.CHROM ≠ "") →
    (pr :: contigsGo rest pr).Nodup →
    keyGroups rest temp pr
      = (temp ++ (rest.filter (fun r => r.CHROM == pr)).map snpKey)
        :: (contigsGo rest pr).map
            (fun c => (rest.filter (fun r => r.CHROM == c)).map snpKey) := by
  intro rest
  induction rest with
  | nil => intro temp pr hpr _ _; simp [keyGroups, contigsGo, hpr]
  | cons rec' rest ih =>
    intro temp pr hpr hne hndp
    rw [keyGroups, contigsGo]
    by_cases hcp : rec'.CHROM = pr
    · rw [if_neg (fun hc : pr ≠ "" ∧ pr ≠ rec'.CHROM => hc.2 hcp.symm), if_pos hcp, hcp]
      rw [ih (temp ++ [snpKey rec']) pr hpr
        (fun rec'' h => hne rec'' (List.mem_cons_of_mem _ h)) (by rwa [contigsGo, if_pos hcp] at hndp)]
      have hfc : (rec' :: rest).filter (fun r => r.CHROM == pr)
          = rec' :: rest.filter (fun r => r.CHROM == pr) :=
        List.filter_cons_of_pos (by simp [hcp])
      rw [hfc]
      congr 1
      · simp
      · apply List.map_congr_left
        intro c hcmem
        have hpr_notmem : pr ∉ contigsGo rest pr := by
          rw [contigsGo, if_pos hcp] at hndp
          exact (List.nodup_cons.mp hndp).1
        have hcne : rec'.CHROM ≠ c := fun h => hpr_notmem ((hcp ▸ h) ▸ hcmem)
        rw [List.filter_cons_of_neg (by simp [hcne])]
    · rw [if_pos ⟨hpr, fun h => hcp h.symm⟩, if_neg hcp]
      have hchrom : rec'.CHROM ≠ "" := hne rec' (List.mem_cons_self _ _)
      rw [contigsGo, if_neg hcp] at hndp
      have hndp' : (rec'.CHROM :: contigsGo rest rec'.CHROM).Nodup :=
        (List.nodup_cons.mp hndp).2
      rw [ih [snpKey rec'] rec'.CHROM hchrom
        (fun rec'' h => hne rec'' (List.mem_cons_of_mem _ h)) hndp']
      have hprfresh : ∀ rec'' ∈ rest, ¬ (rec''.CHROM = pr) := by
        intro rec'' hmem heq
        have hpr_notmem : pr ∉ rec'.CHROM :: contigsGo rest rec'.CHROM :=
          (List.nodup_cons.mp hndp).1
        rcases mem_contigsGo rest rec'.CHROM rec'' hmem with h | h
        · exact hpr_notmem (heq ▸ h ▸ List.mem_cons_self _ _)
        · exact hpr_notmem (List.mem_cons_of_mem _ (heq ▸ h))
      have hfpr : (rec' :: rest).filter (fun r => r.CHROM == pr) = [] := by
        rw [List.filter_cons_of_neg (by simp [hcp])]
        rw [List.filter_eq_nil_iff]
        intro rec'' hmem
        simp [hprfresh rec'' hmem]
      rw [hfpr]
      simp only [List.map_nil, List.append_nil, List.map_cons]
      congr 1
      rw [List.filter_cons_of_pos (by simp)]
      simp only [List.map_cons, List.singleton_append]
      congr 1
      apply List.map_congr_left
      intro c hcmem
      have hcne : rec'.CHROM ≠ c := fun h =>
        (List.nodup_cons.mp hndp').1 (h ▸ hcmem)
      rw [List.filter_cons_of_neg (by simp [hcne])]

/-- Under contiguous grouping the flushable groups are one per contig, each
being exactly the keys of the loci observed for that contig. -/
theorem keyGroups_top (records : List VcfRecord)
    (hne : ∀ rec ∈ records, rec.CHROM ≠ "") (hch : Chunked records) :
    keyGroups records [] "" = (contigsOf records).map (lociOfContig records) := by
  cases records with
  | nil => simp [keyGroups, contigsOf]
  | cons r rest =>
    rw [keyGroups, if_neg (fun h : ("" : String) ≠ "" ∧ ("" : String) ≠ r.CHROM => h.1 rfl)]
    have hchrom : r.CHROM ≠ "" := hne r (List.mem_cons_self _ _)
    have hnd : (r.CHROM :: contigsGo rest r.CHROM).Nodup := hch
    rw [show ([] : List String) ++ [snpKey r] = [snpKey r] from rfl,
      keyGroups_eq rest [snpKey r] r.CHROM hchrom
        (fun rec'' h => hne rec'' (List.mem_cons_of_mem _ h)) hnd]
    rw [contigsOf, List.map_cons]
    congr 1
    · rw [lociOfContig, List.filter_cons_of_pos (by simp), List.map_cons]
      simp [lociOfContig]
    · apply List.map_congr_left
      intro c hcmem
      have hcne : r.CHROM ≠ c := fun h => (List.nodup_cons.mp hnd).1 (h ▸ hcmem)
      rw [lociOfContig, List.filter_cons_of_neg (by simp [hcne])]

/-- Top-level characterisation of the Locus Sampler for a replicate in the
list: the selection has one entry per contig except the final one, and (for
any in-range oracle) the j-th entry is one of the observed loci of the j-th
contig. -/
theorem select_random_snps_spec (records : List VcfRecord) (reps : List String)
    (oracle : Nat → Nat → Nat) (r : String)
    (hnd : reps.Nodup) (hr : r ∈ reps)
    (hne : ∀ rec ∈ records, rec.CHROM ≠ "") (hch : Chunked records)
    (hor : ∀ c n, 0 < n → oracle c n < n) :
    (select_random_snps records reps oracle r).length = (contigsOf records).length - 1 ∧
    ∀ j (hj : j < (select_random_snps records reps oracle r).length),
      (select_random_snps records reps oracle r).get ⟨j, hj⟩
        ∈ lociOfContig records ((contigsOf records).getD j "") := by
  obtain ⟨tail, heq, hlen, hmem⟩ :=
    selectGo_spec reps oracle hnd hor records (fun _ => []) [] "" 0 r hr hne
      (fun h => absurd rfl h)
  have hsel : select_random_snps records reps oracle r = tail := by
    rw [select_random_snps]
    simpa using heq
  rw [keyGroups_top records hne hch] at hlen hmem
  have hlen' : (select_random_snps records reps oracle r).length
      = (contigsOf records).length - 1 := by
    rw [hsel, hlen, List.length_map]
  refine ⟨hlen', ?_⟩
  intro j hj
  have hjt : j < tail.length := by rw [← hsel]; exact hj
  have hmemj := hmem j hjt
  have hjc : j < (contigsOf records).length := by
    rw [hlen, List.length_map] at hjt
    omega
  rw [List.getD_eq_getElem _ _ (by rwa [List.length_map] : j < ((contigsOf records).map (lociOfContig records)).length),
    List.getElem_map] at hmemj
  rw [List.getD_eq_getElem _ _ hjc]
  rw [List.get_eq_getElem] at hmemj ⊢
  simp only [hsel]
  exact hmemj

/- ### Format Encoder (`generate_structure_file` and helpers)

The per-individual genotype store (`init_genotype_dict`) is a dict mapping
each individual to two allele-code lists; it is modelled as a total function
(the script only reads the keys of `indvs_pops`).  The record loop appends,
for every selected record and every individual, the two converted allele
codes; a conversion failure (Python `KeyError`/`IndexError`) aborts, hence
`Option`.  The output phase walks the individuals in `sorted` order,
numbering them from 1 and numbering populations in first-seen order via the
growing `pops` list. -/

/-- Translation of `init_genotype_dict`: every individual starts with two
empty allele lists. -/
def init_genotype_dict : String → List String × List String := fun _ => ([], [])

/-- Translation of the inner `for indiv in indvs_pops` loop of
`generate_structure_file` for one selected record: append the two converted
allele codes of each individual, aborting on a conversion failure. -/
def storeRecord (rec' : VcfRecord) :
    List String → (String → List String × List String) →
      Option (String → List String × List String)
  | [], d => some d
  | indiv :: rest, d =>
      match get_structure_genotype (rec'.genotypes indiv) with
      | none => none
      | some (g1, g2) =>
          storeRecord rec' rest
            (fun s => if s = indiv then ((d s).1 ++ [g1], (d s).2 ++ [g2]) else d s)

/-- Translation of the record loop of `generate_structure_file`: only records
whose key is in the replicate's selected list contribute genotypes. -/
def buildGenotypesGo (selected : List String) (indvs : List String) :
    List VcfRecord → (String → List String × List String) →
      Option (String → List String × List String)
  | [], d => some d
  | rec' :: rest, d =>
      if snpKey rec' ∈ selected then
        match storeRecord rec' indvs d with
        | none => none
        | some d' => buildGenotypesGo selected indvs rest d'
      else buildGenotypesGo selected indvs rest d

/-- Genotype store after the whole record loop, starting from the dict of
`init_genotype_dict`. -/
def buildGenotypes (records : List VcfRecord) (selected : List String)
    (indvs : List String) : Option (String → List String × List String) :=
  buildGenotypesGo selected indvs records init_genotype_dict

/-- Individuals in the order of Python's `sorted(indvs_pops.keys())`
(lexicographic comparison of identifiers). -/
def sortedKeys (indvsPops : List (String × String)) : List String :=
  (indvsPops.map Prod.fst).insertionSort pyLe

/-- Population of an individual, as looked up in the `indvs_pops` dict. -/
def lookupPop (indvsPops : List (String × String)) (i : String) : String :=
  ((indvsPops.lookup i).getD "")

/-- Translation of the output loop of `generate_structure_file`: per
individual two lines `(indiv_count, pop index, allele codes)`, with `pops`
accumulating population labels in first-seen order. -/
def outputGo (pop : String → String) (d : String → List String × List String) :
    List String → List String → Nat → List (Nat × Nat × List String)
  | [], _, _ => []
  | indiv :: rest, pops, n =>
      let pops' := if pop indiv ∈ pops then pops else pops ++ [pop indiv]
      let p := pops'.indexOf (pop indiv) + 1
      (n, p, (d indiv).1) :: (n, p, (d indiv).2) :: outputGo pop d rest pops' (n + 1)

/-- Translation of `generate_structure_file`.  The written file is modelled
as the list of its lines, each line being (individual index, population
index, allele codes); `none` models the uncaught Python exception on an
unconvertible genotype. -/
def generate_structure_file (records : List VcfRecord)
    (selected_snps : String → List String) (indvsPops : List (String × String))
    (replicate : String) : Option (List (Nat × Nat × List String)) :=
  match buildGenotypes records (selected_snps replicate) (indvsPops.map Prod.fst) with
  | none => none
  | some d => some (outputGo (lookupPop indvsPops) d (sortedKeys indvsPops) [] 1)

/-- First-seen deduplication, the spec-level reading of the `pops`
accumulator: the distinct values of a list in order of first occurrence. -/
def firstSeen (l : List String) : List String :=
  l.foldl (fun acc x => if x ∈ acc then acc else acc ++ [x]) []

/-- Convert, in order, the genotype of individual `i` in each given record. -/
def convAll (i : String) : List VcfRecord → Option (List (String × String))
  | [] => some []
  | rec' :: rest =>
      match get_structure_genotype (rec'.genotypes i), convAll i rest with
      | some p, some ps => some (p :: ps)
      | _, _ => none

theorem storeRecord_not_mem (rec' : VcfRecord) :
    ∀ (indvs : List String) (d d' : String → List String × List String)
      (s : String), s ∉ indvs →
    storeRecord rec' indvs d = some d' → d' s = d s := by
  intro indvs
  induction indvs with
  | nil =>
    intro d d' s _ h
    rw [storeRecord] at h
    cases h
    rfl
  | cons j rest ih =>
    intro d d' s hs h
    rw [storeRecord] at h
    cases hconv : get_structure_genotype (rec'.genotypes j) with
    | none => rw [hconv] at h; cases h
    | some p =>
      obtain ⟨g1, g2⟩ := p
      rw [hconv] at h
      have := ih _ d' s (fun hm => hs (List.mem_cons_of_mem _ hm)) h
      rw [this]
      simp only [if_neg (show ¬ s = j from fun hj => hs (hj ▸ List.mem_cons_self _ _))]

theorem storeRecord_mem (rec' : VcfRecord) :
    ∀ (indvs : List String) (d d' : String → List String × List String)
      (i : String), indvs.Nodup → i ∈ indvs →
    storeRecord rec' indvs d = some d' →
    ∃ p, get_structure_genotype (rec'.genotypes i) = some p ∧
      d' i = ((d i).1 ++ [p.1], (d i).2 ++ [p.2]) := by
  intro indvs
  induction indvs with
  | nil => intro d d' i _ hi; exact absurd hi (List.not_mem_nil _)
  | cons j rest ih =>
    intro d d' i hnd hi h
    rw [storeRecord] at h
    cases hconv : get_structure_genotype (rec'.genotypes j) with
    | none => rw [hconv] at h; cases h
    | some p =>
      obtain ⟨g1, g2⟩ := p
      rw [hconv] at h
      by_cases hij : i = j
      · subst hij
        have hnotm : i ∉ rest := (List.nodup_cons.mp hnd).1
        have := storeRecord_not_mem rec' rest _ d' i hnotm h
        refine ⟨(g1, g2), hconv, ?_⟩
        rw [this]
        simp
      · obtain ⟨p', hp', hd'⟩ := ih _ d' i (List.nodup_cons.mp hnd).2
          ((List.mem_cons.mp hi).resolve_left hij) h
        refine ⟨p', hp', ?_⟩
        rw [hd']
        simp only [if_neg hij]

theorem buildGenotypesGo_mem (selected : List String) (indvs : List String)
    (hnd : indvs.Nodup) :
    ∀ (records : List VcfRecord) (d d' : String → List String × List String),
    buildGenotypesGo selected indvs records d = some d' →
    ∀ i ∈ indvs,
    ∃ gps, convAll i (records.filter (fun rec' => snpKey rec' ∈ selected)) = some gps ∧
      d' i = ((d i).1 ++ gps.map Prod.fst, (d i).2 ++ gps.map Prod.snd) := by
  intro records
  induction records with
  | nil =>
    intro d d' h i _
    rw [buildGenotypesGo] at h
    cases h
    exact ⟨[], rfl, by simp⟩
  | cons rec' rest ih =>
    intro d d' h i hi
    rw [buildGenotypesGo] at h
    by_cases hsel : snpKey rec' ∈ selected
    · rw [if_pos hsel] at h
      cases hst : storeRecord rec' indvs d with
      | none => rw [hst] at h; cases h
      | some d₁ =>
        rw [hst] at h
        obtain ⟨gps', hconv', hd'⟩ := ih d₁ d' h i hi
        obtain ⟨p, hp, hd₁⟩ := storeRecord_mem rec' indvs d d₁ i hnd hi hst
        refine ⟨p :: gps', ?_, ?_⟩
        · rw [List.filter_cons_of_pos (by simpa using hsel), convAll, hp, hconv']
        · rw [hd', hd₁]
          simp
    · rw [if_neg hsel] at h
      obtain ⟨gps', hconv', hd'⟩ := ih d d' h i hi
      refine ⟨gps', ?_, hd'⟩
      rwa [List.filter_cons_of_neg (by simpa using hsel)]

/-- State of the `pops` accumulator after processing a list of individuals. -/
def popsAcc (pop : String → String) (pops : List String) (l : List String) : List String :=
  l.foldl (fun acc x => if pop x ∈ acc then acc else acc ++ [pop x]) pops

theorem popsAcc_nil (pop : String → String) (pops : List String) :
    popsAcc pop pops [] = pops := rfl

theorem popsAcc_cons (pop : String → String) (pops : List String) (x : String)
    (l : List String) :
    popsAcc pop pops (x :: l)
      = popsAcc pop (if pop x ∈ pops then pops else pops ++ [pop x]) l := rfl

theorem popsAcc_append (pop : String → String) (pops : List String)
    (l₁ l₂ : List String) :
    popsAcc pop pops (l₁ ++ l₂) = popsAcc pop (popsAcc pop pops l₁) l₂ :=
  List.foldl_append _ _ _ _

theorem popsAcc_extends (pop : String → String) :
    ∀ (l : List String) (pops : List String), ∃ e, popsAcc pop pops l = pops ++ e := by
  intro l
  induction l with
  | nil => intro pops; exact ⟨[], by simp [popsAcc_nil]⟩
  | cons x l ih =>
    intro pops
    rw [popsAcc_cons]
    by_cases hx : pop x ∈ pops
    · rw [if_pos hx]; exact ih pops
    · rw [if_neg hx]
      obtain ⟨e, he⟩ := ih (pops ++ [pop x])
      exact ⟨pop x :: e, by simp [he]⟩

theorem popsAcc_mem_acc (pop : String → String) (l : List String)
    (pops : List String) (x : String) (hx : x ∈ pops) : x ∈ popsAcc pop pops l := by
  obtain ⟨e, he⟩ := popsAcc_extends pop l pops
  rw [he]
  exact List.mem_append_left _ hx

theorem popsAcc_mem (pop : String → String) :
    ∀ (l : List String) (pops : List String) (y : String), y ∈ l →
    pop y ∈ popsAcc pop pops l := by
  intro l
  induction l with
  | nil => intro pops y hy; exact absurd hy (List.not_mem_nil _)
  | cons x l ih =>
    intro pops y hy
    rw [popsAcc_cons]
    rcases List.mem_cons.mp hy with rfl | hy'
    · by_cases hx : pop y ∈ pops
      · rw [if_pos hx]; exact popsAcc_mem_acc pop l pops _ hx
      · rw [if_neg hx]
        exact popsAcc_mem_acc pop l _ _ (by simp)
    · exact ih _ y hy'

theorem indexOf_popsAcc (pop : String → String) (l : List String)
    (pops : List String) (x : String) (hx : x ∈ pops) :
    (popsAcc pop pops l).indexOf x = pops.indexOf x := by
  obtain ⟨e, he⟩ := popsAcc_extends pop l pops
  rw [he]
  exact List.indexOf_append_of_mem hx

theorem indexOf_append_singleton (x : String) :
    ∀ (l : List String), x ∉ l → (l ++ [x]).indexOf x = l.length := by
  intro l
  induction l with
  | nil => simp
  | cons a l ih =>
    intro hx
    have hax : a ≠ x := fun h => hx (h ▸ List.mem_cons_self _ _)
    rw [List.cons_append, List.indexOf_cons_ne _ hax,
      ih (fun h => hx (List.mem_cons_of_mem _ h))]
    rfl

theorem firstSeen_eq_popsAcc (pop : String → String) (l : List String) :
    firstSeen (l.map pop) = popsAcc pop [] l := by
  rw [firstSeen, popsAcc, List.foldl_map]

theorem outputGo_length (pop : String → String)
    (d : String → List String × List String) :
    ∀ (l : List String) (pops : List String) (n : Nat),
    (outputGo pop d l pops n).length = 2 * l.length := by
  intro l
  induction l with
  | nil => intro pops n; rfl
  | cons x l ih =>
    intro pops n
    rw [outputGo]
    simp only [List.length_cons, ih, List.length_cons]
    omega

theorem outputGo_get (pop : String → String)
    (d : String → List String × List String) :
    ∀ (l : List String) (pops : List String) (n : Nat) (i : Nat), i < l.length →
    (outputGo pop d l pops n).getD (2*i) (0, 0, [])
        = (n + i, (popsAcc pop pops (l.take (i+1))).indexOf (pop (l.getD i "")) + 1,
            (d (l.getD i "")).1) ∧
    (outputGo pop d l pops n).getD (2*i+1) (0, 0, [])
        = (n + i, (popsAcc pop pops (l.take (i+1))).indexOf (pop (l.getD i "")) + 1,
            (d (l.getD i "")).2) := by
  intro l
  induction l with
  | nil => intro pops n i hi; simp at hi
  | cons x l ih =>
    intro pops n i hi
    match i with
    | 0 =>
      rw [outputGo]
      constructor
      · simp [popsAcc_cons, popsAcc_nil, List.getD]
      · simp [popsAcc_cons, popsAcc_nil, List.getD]
    | i + 1 =>
      have hi' : i < l.length := by simpa using hi
      have := ih (if pop x ∈ pops then pops else pops ++ [pop x]) (n + 1) i hi'
      rw [outputGo]
      have ht : (x :: l).take (i + 1 + 1) = x :: l.take (i + 1) := rfl
      constructor
      · rw [show 2*(i+1) = 2*i + 1 + 1 from by omega]
        simp only [List.getD_cons_succ]
        rw [this.1, ht, popsAcc_cons]
        simp only [Prod.mk.injEq, and_true]
        omega
      · rw [show 2*(i+1)+1 = (2*i+1) + 1 + 1 from by omega]
        simp only [List.getD_cons_succ]
        rw [this.2, ht, popsAcc_cons]
        simp only [Prod.mk.injEq, and_true]
        omega

/- ### Batch Scheduler (`generate_batches`)

The Python loop appends to `temp_batch` and flushes it into `batches` when
`count == threads` or when the last element has been consumed
(`total_count == len(replicate_IDs)`); translated with the remaining list in
place of `total_count` (the last element is reached exactly when the rest of
the list is empty). -/

def gbGo (threads : Nat) : List String → List String → Nat → List (List String)
  | [], _, _ => []
  | x :: rest, temp, count =>
      if count + 1 = threads ∨ rest = [] then (temp ++ [x]) :: gbGo threads rest [] 0
      else gbGo threads rest (temp ++ [x]) (count + 1)

/-- Translation of `generate_batches`. -/
def generate_batches (replicate_IDs : List String) (threads : Nat) :
    List (List String) :=
  gbGo threads replicate_IDs [] 0

theorem gbGo_spec (T : Nat) :
    ∀ (l temp : List String) (c : Nat), l ≠ [] → c < T →
    gbGo T l temp c = (temp ++ l.take (T - c)) :: gbGo T (l.drop (T - c)) [] 0 := by
  intro l
  induction l with
  | nil => intro temp c h _; exact absurd rfl h
  | cons x rest ih =>
    intro temp c _ hc
    by_cases hrest : rest = []
    · subst hrest
      rw [gbGo, if_pos (Or.inr rfl)]
      have h1 : 1 ≤ T - c := by omega
      rw [List.take_of_length_le (by simpa using h1), List.drop_of_length_le (by simpa using h1)]
    · rw [gbGo]
      by_cases hcT : c + 1 = T
      · rw [if_pos (Or.inl hcT)]
        have : T - c = 1 := by omega
        rw [this]
        rfl
      · rw [if_neg (by simp [hcT, hrest]), ih (temp ++ [x]) (c + 1) hrest (by omega)]
        have hTc : T - c = (T - (c + 1)) + 1 := by omega
        rw [hTc, List.take_succ_cons, List.drop_succ_cons]
        simp

theorem generate_batches_step (l : List String) (T : Nat) (hl : l ≠ []) (hT : 0 < T) :
    generate_batches l T = l.take T :: generate_batches (l.drop T) T := by
  rw [generate_batches, gbGo_spec T l [] 0 hl hT]
  simp [generate_batches]

theorem generate_batches_nil (T : Nat) : generate_batches [] T = [] := rfl

theorem generate_batches_ne_nil (l : List String) (T : Nat) (hl : l ≠ [])
    (hT : 0 < T) : generate_batches l T ≠ [] := by
  rw [generate_batches_step l T hl hT]
  simp

theorem generate_batches_join (T : Nat) (hT : 0 < T) :
    ∀ (n : Nat) (l : List String), l.length ≤ n →
    (generate_batches l T).flatten = l := by
  intro n
  induction n with
  | zero =>
    intro l hl
    have : l = [] := List.length_eq_zero.mp (by omega)
    subst this
    rfl
  | succ n ih =>
    intro l hl
    by_cases hnil : l = []
    · subst hnil; rfl
    · rw [generate_batches_step l T hnil hT, List.flatten_cons,
        ih (l.drop T) (by rw [List.length_drop]; omega)]
      exact List.take_append_drop T l

theorem generate_batches_count (T : Nat) (hT : 0 < T) :
    ∀ (n : Nat) (l : List String), l.length ≤ n →
    (generate_batches l T).length = (l.length + T - 1) / T := by
  intro n
  induction n with
  | zero =>
    intro l hl
    have : l = [] := List.length_eq_zero.mp (by omega)
    subst this
    simp [generate_batches_nil, Nat.div_eq_of_lt (by omega : T - 1 < T)]
  | succ n ih =>
    intro l hl
    by_cases hnil : l = []
    · subst hnil
      simp [generate_batches_nil, Nat.div_eq_of_lt (by omega : T - 1 < T)]
    · rw [generate_batches_step l T hnil hT]
      have hlen : 1 ≤ l.length := List.length_pos.mpr hnil
      by_cases hle : l.length ≤ T
      · have hdrop : l.drop T = [] := List.drop_eq_nil_of_le hle
        rw [hdrop, generate_batches_nil]
        have : (l.length + T - 1) / T = 1 := by
          apply Nat.div_eq_of_lt_le (by omega) (by omega)
        rw [this]
        rfl
      · rw [List.length_cons, ih (l.drop T) (by rw [List.length_drop]; omega),
          List.length_drop]
        have h1 : l.length - T + T - 1 = (l.length - 1 - T) + T := by omega
        have h2 : l.length + T - 1 = (l.length - 1) + T := by omega
        rw [h1, h2, Nat.add_div_right _ hT, Nat.add_div_right _ hT]
        have h4 : T ≤ l.length - 1 := by omega
        rw [Nat.div_eq_sub_div hT h4]

theorem getLast?_cons_of_ne_nil {α} (a : α) (s : List α) (h : s ≠ []) :
    (a :: s).getLast? = s.getLast? := by
  cases s with
  | nil => exact absurd rfl h
  | cons b t => rfl

theorem generate_batches_sizes (T : Nat) (hT : 0 < T) :
    ∀ (n : Nat) (l : List String), l.length ≤ n →
    (∀ i, i + 1 < (generate_batches l T).length →
        ((generate_batches l T).getD i []).length = T) ∧
    (l ≠ [] → ((generate_batches l T).getLast?.getD []).length
        = l.length - T * ((generate_batches l T).length - 1)) := by
  intro n
  induction n with
  | zero =>
    intro l hl
    have hnil : l = [] := List.length_eq_zero.mp (by omega)
    subst hnil
    exact ⟨fun i hi => by simp [generate_batches_nil] at hi,
      fun h => absurd rfl h⟩
  | succ n ih =>
    intro l hl
    by_cases hnil : l = []
    · subst hnil
      exact ⟨fun i hi => by simp [generate_batches_nil] at hi,
        fun h => absurd rfl h⟩
    · rw [generate_batches_step l T hnil hT]
      have hlen : 1 ≤ l.length := List.length_pos.mpr hnil
      by_cases hle : l.length ≤ T
      · have hdrop : l.drop T = [] := List.drop_eq_nil_of_le hle
        rw [hdrop, generate_batches_nil]
        constructor
        · intro i hi
          simp at hi
        · intro _
          rw [List.take_of_length_le hle]
          simp
      · have hdlen : (l.drop T).length = l.length - T := List.length_drop _ _
        have hdne : l.drop T ≠ [] := List.ne_nil_of_length_pos (by omega)
        have hgbne : generate_batches (l.drop T) T ≠ [] :=
          generate_batches_ne_nil _ _ hdne hT
        obtain ⟨ih1, ih2⟩ := ih (l.drop T) (by omega)
        constructor
        · intro i hi
          match i with
          | 0 =>
            simp only [List.getD_cons_zero, List.length_take]
            omega
          | i + 1 =>
            simp only [List.getD_cons_succ]
            exact ih1 i (by simpa using hi)
        · intro _
          rw [getLast?_cons_of_ne_nil _ _ hgbne]
          rw [ih2 hdne, hdlen]
          have hk : 1 ≤ (generate_batches (l.drop T) T).length :=
            List.length_pos.mpr hgbne
          have hmul2 : T * (generate_batches (l.drop T) T).length
              = T + T * ((generate_batches (l.drop T) T).length - 1) := by
            obtain ⟨k', hk'⟩ : ∃ k', (generate_batches (l.drop T) T).length = k' + 1 :=
              ⟨_, (Nat.succ_pred_eq_of_pos hk).symm⟩
            rw [hk']
            simp only [Nat.mul_succ, Nat.add_sub_cancel]
            omega
          simp only [List.length_cons, Nat.add_sub_cancel]
          omega

/- ### Alignment Harvester (`generate_clumpp_input`)

The harvester scans each replicate's STRUCTURE output file for the fixed
ancestry-table header, then copies lines until the next blank line, skipping
lines whose stripped text starts with `Label`; after each replicate it writes
one blank separator line.  The filesystem is modelled as a function from
filename to file lines. -/

def STRUCTURE_ANCESTRY_HEADER : String := "Inferred ancestry of individuals:"

/-- Translation of the line loop of `generate_clumpp_input` for one file:
the Boolean is the `reached_ancestry_table` flag. -/
def harvestGo : List String → Bool → List String
  | [], _ => []
  | l :: rest, reached =>
      if pyStrip l = STRUCTURE_ANCESTRY_HEADER then harvestGo rest true
      else if reached = true ∧ pyStrip l = "" then []
      else if reached = true ∧ pyTake (pyStrip l) 5 ≠ "Label" then l :: harvestGo rest reached
      else harvestGo rest reached

/-- Name of the STRUCTURE result file consulted for a replicate and a K
(`replicate.replace('.str', '_{K}.out_f')`). -/
def structure_out_filename (replicate : String) (K : Nat) : String :=
  replicate.replace ".str" ("_" ++ Nat.repr K ++ ".out_f")

/-- Translation of `generate_clumpp_input`: concatenation, over replicates in
order, of the harvested lines of that replicate's result file followed by one
blank separator line. -/
def generate_clumpp_input (files : String → List String)
    (replicate_IDs : List String) (K : Nat) : List String :=
  replicate_IDs.foldl
    (fun out r => out ++ harvestGo (files (structure_out_filename r K)) false ++ [""]) []

/-- The claim's reading of the per-file harvest: every line strictly after
the (first) header line and strictly before the next blank line, except
lines whose first five non-blank characters are `Label`. -/
def claimedHarvest (lines : List String) : List String :=
  (((lines.dropWhile (fun l => pyStrip l != STRUCTURE_ANCESTRY_HEADER)).drop 1).takeWhile
      (fun l => pyStrip l != "")).filter
    (fun l => pyTake (pyStrip l) 5 != "Label")

/-- The amended reading: additionally skip lines whose stripped text equals
the ancestry-table header itself (the code's first branch captures them). -/
def amendedHarvest (lines : List String) : List String :=
  (((lines.dropWhile (fun l => pyStrip l != STRUCTURE_ANCESTRY_HEADER)).drop 1).takeWhile
      (fun l => pyStrip l != "")).filter
    (fun l => pyTake (pyStrip l) 5 != "Label" && pyStrip l != STRUCTURE_ANCESTRY_HEADER)

theorem harvestGo_reached (lines : List String) :
    harvestGo lines true
      = (lines.takeWhile (fun l => pyStrip l != "")).filter
          (fun l => pyTake (pyStrip l) 5 != "Label"
            && pyStrip l != STRUCTURE_ANCESTRY_HEADER) := by
  induction lines with
  | nil => rfl
  | cons l rest ih =>
    rw [harvestGo]
    by_cases hh : pyStrip l = STRUCTURE_ANCESTRY_HEADER
    · rw [if_pos hh, ih]
      have hne : pyStrip l ≠ "" := by rw [hh]; decide
      rw [List.takeWhile_cons_of_pos (by simpa using hne),
        List.filter_cons_of_neg (by simp [hh])]
    · rw [if_neg hh]
      by_cases hb : pyStrip l = ""
      · rw [if_pos ⟨rfl, hb⟩, List.takeWhile_cons_of_neg (by simpa using hb), List.filter_nil]
      · rw [if_neg (fun h => hb h.2), List.takeWhile_cons_of_pos (by simpa using hb)]
        by_cases hlab : pyTake (pyStrip l) 5 = "Label"
        · rw [if_neg (fun h => h.2 hlab), ih,
            List.filter_cons_of_neg (by simp [hlab])]
        · rw [if_pos ⟨rfl, hlab⟩, ih,
            List.filter_cons_of_pos (by simp [hlab, hh])]

theorem harvestGo_eq_amended (lines : List String) :
    harvestGo lines false = amendedHarvest lines := by
  induction lines with
  | nil => rfl
  | cons l rest ih =>
    rw [harvestGo, amendedHarvest]
    by_cases hh : pyStrip l = STRUCTURE_ANCESTRY_HEADER
    · rw [if_pos hh, List.dropWhile_cons_of_neg (by simp [hh]),
        List.drop_succ_cons, List.drop_zero]
      exact harvestGo_reached rest
    · rw [if_neg hh, if_neg (by simp), if_neg (by simp),
        List.dropWhile_cons_of_pos (by simpa using hh), ih, amendedHarvest]

/- ### Cluster-Count Estimator (`calc_clust_stats`)

Each permutation CSV row is (sample, population, cluster membership values);
membership values are modelled as exact rationals.  The per-replicate
`cluster_assign` dict-of-dict-of-lists is rendered by observation functions:
cluster numbers are the indices `c` with `c < row.values.length` for some
row, and per-(cluster, population) value lists collect rows in file order.
The threshold counts only depend on these sets, not on dict iteration
order. -/

structure ClumppRow where
  sample : String
  pop : String
  values : List ℚ

/-- Mean as computed by `numpy.mean` (meaningful for non-empty input). -/
def meanQ (l : List ℚ) : ℚ := l.sum / l.length

/-- Ascending sort of rationals. -/
def sortQ (l : List ℚ) : List ℚ := l.insertionSort (· ≤ ·)

/-- Median as computed by `numpy.median` (meaningful for non-empty input):
middle element of the sorted list, or the mean of the two middle elements. -/
def medianQ (l : List ℚ) : ℚ :=
  if l.length % 2 = 1 then (sortQ l).getD (l.length / 2) 0
  else ((sortQ l).getD (l.length / 2 - 1) 0 + (sortQ l).getD (l.length / 2) 0) / 2

/-- Maximum as computed by `numpy.max` (meaningful for non-empty input). -/
def maxQ : List ℚ → ℚ
  | [] => 0
  | x :: xs => xs.foldl max x

/-- Maximum of a list of naturals (`numpy.max` on integer data). -/
def maxNat : List Nat → Nat
  | [] => 0
  | x :: xs => xs.foldl max x

/-- Populations present for a cluster index, in first-seen (dict insertion)
order. -/
def clusterPops (rows : List ClumppRow) (c : Nat) : List String :=
  firstSeen ((rows.filter (fun row => c < row.values.length)).map (fun row => row.pop))

/-- Membership values stored for (cluster, population), in file order. -/
def clusterPopValues (rows : List ClumppRow) (c : Nat) (p : String) : List ℚ :=
  rows.filterMap (fun row => if row.pop = p then row.values.get? c else none)

/-- Number of cluster columns (the dict keys are `0 ≤ c < numClusters`). -/
def numClusters (rows : List ClumppRow) : Nat :=
  maxNat (rows.map (fun row => row.values.length))

/-- Per-population means for a cluster (`cluster_mean[cluster_number]`). -/
def cluster_mean (rows : List ClumppRow) (c : Nat) : List ℚ :=
  (clusterPops rows c).map (fun p => meanQ (clusterPopValues rows c p))

/-- The list stored in `cluster_median[cluster_number]` by the source.  The
loop body computes `median = numpy.median(...)` but then executes
`cluster_median[cluster_number].append(mean)` (line 276), so the stored
values are the per-population means, not the medians. -/
def cluster_median (rows : List ClumppRow) (c : Nat) : List ℚ :=
  (clusterPops rows c).map (fun p => meanQ (clusterPopValues rows c p))

/-- Count of clusters whose maximal per-population mean exceeds 0.5. -/
def mean_threshold_count (rows : List ClumppRow) : Nat :=
  ((List.range (numClusters rows)).filter
    (fun c => maxQ (cluster_mean rows c) > (1/2 : ℚ))).length

/-- Count of clusters whose maximal stored `cluster_median` value exceeds
0.5 (because of the appending slip this coincides with the mean count). -/
def median_threshold_count (rows : List ClumppRow) : Nat :=
  ((List.range (numClusters rows)).filter
    (fun c => maxQ (cluster_median rows c) > (1/2 : ℚ))).length

/-- Translation of `calc_clust_stats`: the four scalars.  Lines 298-299 of
the source compute both `MedMedK` and `MaxMedK` from `mean_thresholds`, so
the embedding does the same; `median_thresholds` is accumulated (line 291)
but never used for the result. -/
def calc_clust_stats (tables : List (List ClumppRow)) : ℚ × Nat × ℚ × Nat :=
  let mean_thresholds := tables.map mean_threshold_count
  let median_thresholds := tables.map median_threshold_count
  let MedMeaK := medianQ (mean_thresholds.map (fun n => (n : ℚ)))
  let MaxMeaK := maxNat mean_thresholds
  let MedMedK := medianQ (mean_thresholds.map (fun n => (n : ℚ)))
  let MaxMedK := maxNat mean_thresholds
  (MedMeaK, MaxMeaK, MedMedK, MaxMedK)

/-- Modelled from the spec: the per-population medians that §4.6 prescribes
for the median-threshold count (what line 276 should have appended). -/
def cluster_median_spec (rows : List ClumppRow) (c : Nat) : List ℚ :=
  (clusterPops rows c).map (fun p => medianQ (clusterPopValues rows c p))

/-- Modelled from the spec: count of clusters whose maximal per-population
median exceeds 0.5. -/
def median_threshold_count_spec (rows : List ClumppRow) : Nat :=
  ((List.range (numClusters rows)).filter
    (fun c => maxQ (cluster_median_spec rows c) > (1/2 : ℚ))).length

/- ### Identifier generator (`generate_identifiers`) -/

/-- Translation of `generate_identifiers`: for `x` in `range(replicates)`,
the identifier `'{0}/{1}_{2}.str'.format(output_folder, filename,
timestamp + x)` where `filename` is the input name with `.vcf` removed. -/
def generate_identifiers (output_folder vcf_filename : String)
    (timestamp replicates : Nat) : List String :=
  (List.range replicates).map (fun x =>
    output_folder ++ "/" ++ vcf_filename.replace ".vcf" "" ++ "_"
      ++ Nat.repr (timestamp + x) ++ ".str")

/- ### Claim theorems -/

/-- C5: the genotype-to-code conversion maps the four nucleotide symbols and
the missing-data symbol through the fixed table, fails (lookup error,
modelled as `none`) on any other symbol, and maps an absent (`None` or
empty) genotype call to the missing/missing sentinel pair `('-9', '-9')` for
both allele lines. -/
theorem genotype_conversion_spec (c : Char)
    (hc : c ∉ (['A', 'T', 'G', 'C', '.'] : List Char)) :
    GENOTYPE_CONVERSION 'A' = some "10" ∧ GENOTYPE_CONVERSION 'T' = some "11" ∧
    GENOTYPE_CONVERSION 'G' = some "12" ∧ GENOTYPE_CONVERSION 'C' = some "13" ∧
    GENOTYPE_CONVERSION '.' = some "-9" ∧ GENOTYPE_CONVERSION c = none ∧
    get_structure_genotype none = some ("-9", "-9") ∧
    get_structure_genotype (some "") = some ("-9", "-9") := by
  simp only [List.mem_cons, List.not_mem_nil, or_false, not_or] at hc
  obtain ⟨hA, hT, hG, hC, hD⟩ := hc
  refine ⟨by decide, by decide, by decide, by decide, by decide, ?_, by decide, by decide⟩
  rw [GENOTYPE_CONVERSION, if_neg hA, if_neg hT, if_neg hG, if_neg hC, if_neg hD]

/-- Witness for C5 at the concrete unconvertible symbol `'N'`. -/
theorem genotype_conversion_spec_witness :
    GENOTYPE_CONVERSION 'A' = some "10" ∧ GENOTYPE_CONVERSION 'T' = some "11" ∧
    GENOTYPE_CONVERSION 'G' = some "12" ∧ GENOTYPE_CONVERSION 'C' = some "13" ∧
    GENOTYPE_CONVERSION '.' = some "-9" ∧ GENOTYPE_CONVERSION 'N' = none ∧
    get_structure_genotype none = some ("-9", "-9") ∧
    get_structure_genotype (some "") = some ("-9", "-9") :=
  genotype_conversion_spec 'N' (by decide)

/-- C6: for a non-empty list of N replicate identifiers and batch size
T ≥ 1, the Batch Scheduler produces exactly ⌈N/T⌉ = (N + T - 1) / T
batches, concatenating the batches in order restores the original list,
every batch except possibly the last has size exactly T, and the last batch
has size N - T * (⌈N/T⌉ - 1). -/
theorem generate_batches_spec (ids : List String) (T : Nat)
    (hids : ids ≠ []) (hT : 1 ≤ T) :
    (generate_batches ids T).length = (ids.length + T - 1) / T ∧
    (generate_batches ids T).flatten = ids ∧
    (∀ i, i + 1 < (generate_batches ids T).length →
        ((generate_batches ids T).getD i []).length = T) ∧
    ((generate_batches ids T).getLast?.getD []).length
      = ids.length - T * ((generate_batches ids T).length - 1) := by
  exact ⟨generate_batches_count T hT ids.length ids le_rfl,
    generate_batches_join T hT ids.length ids le_rfl,
    (generate_batches_sizes T hT ids.length ids le_rfl).1,
    (generate_batches_sizes T hT ids.length ids le_rfl).2 hids⟩

/-- Witness for C6 at N = 5 identifiers and T = 2. -/
theorem generate_batches_spec_witness :
    (generate_batches ["a", "b", "c", "d", "e"] 2).length = (5 + 2 - 1) / 2 ∧
    (generate_batches ["a", "b", "c", "d", "e"] 2).flatten = ["a", "b", "c", "d", "e"] ∧
    (∀ i, i + 1 < (generate_batches ["a", "b", "c", "d", "e"] 2).length →
        ((generate_batches ["a", "b", "c", "d", "e"] 2).getD i []).length = 2) ∧
    ((generate_batches ["a", "b", "c", "d", "e"] 2).getLast?.getD []).length
      = 5 - 2 * ((generate_batches ["a", "b", "c", "d", "e"] 2).length - 1) := by
  have h := generate_batches_spec ["a", "b", "c", "d", "e"] 2 (by decide) (by decide)
  simpa using h

/-- C8: the Cluster-Count Estimator is deterministic; two runs on identical
input tables return identical four-scalar outputs. -/
theorem calc_clust_stats_deterministic (t₁ t₂ : List (List ClumppRow))
    (h : t₁ = t₂) : calc_clust_stats t₁ = calc_clust_stats t₂ := by
  rw [h]

/-- Witness for C8 on a concrete pair of equal permutation tables. -/
theorem calc_clust_stats_deterministic_witness :
    calc_clust_stats [[⟨"s1", "p1", [1, 0]⟩]] = calc_clust_stats [[⟨"s1", "p1", [1, 0]⟩]] :=
  calc_clust_stats_deterministic [[⟨"s1", "p1", [1, 0]⟩]] [[⟨"s1", "p1", [1, 0]⟩]] rfl

/-- C9: for every replicate count the identifier generator returns exactly
`replicates` identifiers, pairwise distinct; the x-th identifier embeds the
distinct offset `timestamp + x` into the shared name stem, so the identifier
(which is also the path of the replicate's encoded file) differs from every
other replicate's. -/
theorem generate_identifiers_spec (output_folder vcf_filename : String)
    (timestamp replicates : Nat) :
    (generate_identifiers output_folder vcf_filename timestamp replicates).length
        = replicates ∧
    (generate_identifiers output_folder vcf_filename timestamp replicates).Nodup ∧
    ∀ x, x < replicates →
      (generate_identifiers output_folder vcf_filename timestamp replicates).getD x ""
        = output_folder ++ "/" ++ vcf_filename.replace ".vcf" "" ++ "_"
            ++ Nat.repr (timestamp + x) ++ ".str" := by
  refine ⟨by simp [generate_identifiers], ?_, ?_⟩
  · refine List.Nodup.map ?_ (List.nodup_range _)
    intro x y hxy
    have hdata := congrArg String.data hxy
    simp only [String.data_append, List.append_assoc] at hdata
    have h1 := List.append_cancel_left hdata
    have h2 := List.append_cancel_left h1
    have h3 := List.append_cancel_left h2
    have h4 := List.append_cancel_left h3
    have h5 := List.append_cancel_right h4
    have h6 : Nat.repr (timestamp + x) = Nat.repr (timestamp + y) := String.ext h5
    have := natRepr_injective h6
    omega
  · intro x hx
    rw [generate_identifiers,
      List.getD_eq_getElem _ _ (by simpa using hx), List.getElem_map, List.getElem_range]

/-- Witness for C9 at three replicates from timestamp 100. -/
theorem generate_identifiers_spec_witness :
    (generate_identifiers "out" "data.vcf" 100 3).length = 3 ∧
    (generate_identifiers "out" "data.vcf" 100 3).Nodup ∧
    ∀ x, x < 3 →
      (generate_identifiers "out" "data.vcf" 100 3).getD x ""
        = "out" ++ "/" ++ "data.vcf".replace ".vcf" "" ++ "_"
            ++ Nat.repr (100 + x) ++ ".str" :=
  generate_identifiers_spec "out" "data.vcf" 100 3

/-- C7, counterexample to the claim as stated: in a result file whose
ancestry-table region contains a line equal to the header line itself, that
line lies strictly after the (first) header line and strictly before the
next blank line and does not carry the `Label` prefix, yet the code's first
branch swallows it, so the harvested output differs from the claimed
region-copy. -/
theorem generate_clumpp_input_claim_cex :
    generate_clumpp_input
        (fun _ => [STRUCTURE_ANCESTRY_HEADER, STRUCTURE_ANCESTRY_HEADER, "1 ind1", ""])
        ["r.str"] 2
      ≠ claimedHarvest
          [STRUCTURE_ANCESTRY_HEADER, STRUCTURE_ANCESTRY_HEADER, "1 ind1", ""] ++ [""] := by
  decide

/-- C7, amended: the Alignment Harvester writes, per replicate in order,
every line of that replicate's result file strictly after the first
ancestry-table header line and strictly before the next blank line — except
lines whose first five non-blank characters are `Label` and lines whose
stripped text equals the header line itself — followed by one blank
separator line. -/
theorem generate_clumpp_input_spec (files : String → List String)
    (replicate_IDs : List String) (K : Nat) :
    generate_clumpp_input files replicate_IDs K
      = replicate_IDs.flatMap
          (fun r => amendedHarvest (files (structure_out_filename r K)) ++ [""]) := by
  suffices h : ∀ (reps : List String) (acc : List String),
      reps.foldl (fun out r =>
          out ++ harvestGo (files (structure_out_filename r K)) false ++ [""]) acc
        = acc ++ reps.flatMap
            (fun r => amendedHarvest (files (structure_out_filename r K)) ++ [""]) by
    have := h replicate_IDs []
    simpa [generate_clumpp_input] using this
  intro reps
  induction reps with
  | nil => intro acc; simp
  | cons r rest ih =>
    intro acc
    rw [List.foldl_cons, ih, harvestGo_eq_amended]
    simp

/-- C1, divergence exhibit: on a single permutation table with one cluster
and one population whose membership values are (0.6, 0.6, 0), the
per-population mean is 0.4 (below the 0.5 threshold) while the
per-population median is 0.6 (above it); the spec-prescribed
median-threshold series is therefore (1), with median and maximum 1, but
`calc_clust_stats` reports MedMedK = MaxMedK = 0 because line 276 appends
the mean into `cluster_median` and lines 298-299 reuse `mean_thresholds`. -/
theorem calc_clust_stats_median_bug :
    calc_clust_stats
        [[⟨"s1", "p", [(3:ℚ)/5]⟩, ⟨"s2", "p", [(3:ℚ)/5]⟩, ⟨"s3", "p", [0]⟩]]
      = (0, 0, 0, 0) ∧
    median_threshold_count
        [⟨"s1", "p", [(3:ℚ)/5]⟩, ⟨"s2", "p", [(3:ℚ)/5]⟩, ⟨"s3", "p", [0]⟩] = 0 ∧
    median_threshold_count_spec
        [⟨"s1", "p", [(3:ℚ)/5]⟩, ⟨"s2", "p", [(3:ℚ)/5]⟩, ⟨"s3", "p", [0]⟩] = 1 ∧
    medianQ ((([[⟨"s1", "p", [(3:ℚ)/5]⟩, ⟨"s2", "p", [(3:ℚ)/5]⟩, ⟨"s3", "p", [0]⟩]].map
        median_threshold_count_spec).map (fun n => (n : ℚ)))) = 1 ∧
    maxNat ([[⟨"s1", "p", [(3:ℚ)/5]⟩, ⟨"s2", "p", [(3:ℚ)/5]⟩, ⟨"s3", "p", [0]⟩]].map
        median_threshold_count_spec) = 1 := by
  have hvals : clusterPopValues
      [⟨"s1", "p", [(3:ℚ)/5]⟩, ⟨"s2", "p", [(3:ℚ)/5]⟩, ⟨"s3", "p", [0]⟩] 0 "p"
      = [(3:ℚ)/5, 3/5, 0] := by
    simp [clusterPopValues, List.filterMap]
  have hpops : clusterPops
      [⟨"s1", "p", [(3:ℚ)/5]⟩, ⟨"s2", "p", [(3:ℚ)/5]⟩, ⟨"s3", "p", [0]⟩] 0 = ["p"] := by
    decide
  have hnum : numClusters
      [⟨"s1", "p", [(3:ℚ)/5]⟩, ⟨"s2", "p", [(3:ℚ)/5]⟩, ⟨"s3", "p", [0]⟩] = 1 := by
    decide
  have hmean : cluster_mean
      [⟨"s1", "p", [(3:ℚ)/5]⟩, ⟨"s2", "p", [(3:ℚ)/5]⟩, ⟨"s3", "p", [0]⟩] 0 = [2/5] := by
    rw [cluster_mean, hpops, List.map_cons, List.map_nil, hvals]
    norm_num [meanQ]
  have hmediansp : cluster_median_spec
      [⟨"s1", "p", [(3:ℚ)/5]⟩, ⟨"s2", "p", [(3:ℚ)/5]⟩, ⟨"s3", "p", [0]⟩] 0 = [3/5] := by
    rw [cluster_median_spec, hpops, List.map_cons, List.map_nil, hvals]
    norm_num [medianQ, sortQ, List.insertionSort, List.orderedInsert]
  have hrange : List.range 1 = [0] := by decide
  have hmedian_code : cluster_median
      [⟨"s1", "p", [(3:ℚ)/5]⟩, ⟨"s2", "p", [(3:ℚ)/5]⟩, ⟨"s3", "p", [0]⟩] 0 = [2/5] := hmean
  have hmtc : mean_threshold_count
      [⟨"s1", "p", [(3:ℚ)/5]⟩, ⟨"s2", "p", [(3:ℚ)/5]⟩, ⟨"s3", "p", [0]⟩] = 0 := by
    rw [mean_threshold_count, hnum, hrange,
      List.filter_cons_of_neg (by simp only [hmean, maxQ, List.foldl_nil,
        decide_eq_true_eq, gt_iff_lt, not_lt]; norm_num), List.filter_nil]
    rfl
  have hmedc : median_threshold_count
      [⟨"s1", "p", [(3:ℚ)/5]⟩, ⟨"s2", "p", [(3:ℚ)/5]⟩, ⟨"s3", "p", [0]⟩] = 0 := by
    rw [median_threshold_count, hnum, hrange,
      List.filter_cons_of_neg (by simp only [hmedian_code, maxQ, List.foldl_nil,
        decide_eq_true_eq, gt_iff_lt, not_lt]; norm_num), List.filter_nil]
    rfl
  have hspecc : median_threshold_count_spec
      [⟨"s1", "p", [(3:ℚ)/5]⟩, ⟨"s2", "p", [(3:ℚ)/5]⟩, ⟨"s3", "p", [0]⟩] = 1 := by
    rw [median_threshold_count_spec, hnum, hrange,
      List.filter_cons_of_pos (by simp only [hmediansp, maxQ, List.foldl_nil,
        decide_eq_true_eq, gt_iff_lt]; norm_num), List.filter_nil]
    rfl
  refine ⟨?_, hmedc, hspecc, ?_, ?_⟩
  · simp only [calc_clust_stats, List.map_cons, List.map_nil, hmtc]
    norm_num [medianQ, sortQ, List.insertionSort, List.orderedInsert, maxNat]
  · simp only [List.map_cons, List.map_nil, hspecc]
    norm_num [medianQ, sortQ, List.insertionSort, List.orderedInsert]
  · simp only [List.map_cons, List.map_nil, hspecc]
    rfl

/-- C2: for a variant stream grouped contiguously by contig (with non-empty
CHROM values) and pairwise-distinct replicate identifiers, each listed
replicate's selection contains exactly one locus key per contig encountered
— the j-th selected key is a locus of the j-th contig — except that no key
is recorded for the final contig; an empty stream yields empty selections
for every replicate. -/
theorem select_random_snps_per_contig (records : List VcfRecord)
    (reps : List String) (oracle : Nat → Nat → Nat) (r : String)
    (hnd : reps.Nodup) (hr : r ∈ reps)
    (hne : ∀ rec ∈ records, rec.CHROM ≠ "") (hch : Chunked records)
    (hor : ∀ c n, 0 < n → oracle c n < n) :
    (select_random_snps records reps oracle r).length
        = (contigsOf records).length - 1 ∧
    (∀ j (hj : j < (select_random_snps records reps oracle r).length),
        (select_random_snps records reps oracle r).get ⟨j, hj⟩
          ∈ lociOfContig records ((contigsOf records).getD j "")) ∧
    (records = [] → ∀ s, select_random_snps records reps oracle s = []) := by
  obtain ⟨h1, h2⟩ := select_random_snps_spec records reps oracle r hnd hr hne hch hor
  refine ⟨h1, h2, ?_⟩
  rintro rfl s
  rfl

/-- Witness for C2: two contigs with two and one loci, two replicates, the
always-zero oracle. -/
theorem select_random_snps_per_contig_witness :
    (select_random_snps
        [⟨"c1", 5, fun _ => none⟩, ⟨"c1", 7, fun _ => none⟩, ⟨"c2", 3, fun _ => none⟩]
        ["a", "b"] (fun _ _ => 0) "a").length
      = (contigsOf
          [⟨"c1", 5, fun _ => none⟩, ⟨"c1", 7, fun _ => none⟩,
            ⟨"c2", 3, fun _ => none⟩]).length - 1 ∧
    (∀ j (hj : j < (select_random_snps
        [⟨"c1", 5, fun _ => none⟩, ⟨"c1", 7, fun _ => none⟩, ⟨"c2", 3, fun _ => none⟩]
        ["a", "b"] (fun _ _ => 0) "a").length),
        (select_random_snps
            [⟨"c1", 5, fun _ => none⟩, ⟨"c1", 7, fun _ => none⟩, ⟨"c2", 3, fun _ => none⟩]
            ["a", "b"] (fun _ _ => 0) "a").get ⟨j, hj⟩
          ∈ lociOfContig
              [⟨"c1", 5, fun _ => none⟩, ⟨"c1", 7, fun _ => none⟩, ⟨"c2", 3, fun _ => none⟩]
              ((contigsOf
                [⟨"c1", 5, fun _ => none⟩, ⟨"c1", 7, fun _ => none⟩,
                  ⟨"c2", 3, fun _ => none⟩]).getD j "")) ∧
    ([⟨"c1", 5, fun _ => none⟩, ⟨"c1", 7, fun _ => none⟩,
        (⟨"c2", 3, fun _ => none⟩ : VcfRecord)] = ([] : List VcfRecord) →
      ∀ s, select_random_snps
        [⟨"c1", 5, fun _ => none⟩, ⟨"c1", 7, fun _ => none⟩, ⟨"c2", 3, fun _ => none⟩]
        ["a", "b"] (fun _ _ => 0) s = []) :=
  select_random_snps_per_contig
    [⟨"c1", 5, fun _ => none⟩, ⟨"c1", 7, fun _ => none⟩, ⟨"c2", 3, fun _ => none⟩]
    ["a", "b"] (fun _ _ => 0) "a" (by decide) (by decide)
    (by
      rintro rec hrec
      simp only [List.mem_cons, List.not_mem_nil, or_false] at hrec
      rcases hrec with rfl | rfl | rfl <;> decide)
    (by simp only [Chunked]; decide) (fun _ _ h => h)

/-- C3: for every replicate and non-final contig, under any outcome of the
random draws the selected locus is one of the loci actually observed for
that contig; in particular a contig with exactly one observed locus is
selected deterministically. -/
theorem select_random_snps_members (records : List VcfRecord)
    (reps : List String) (oracle : Nat → Nat → Nat) (r : String)
    (hnd : reps.Nodup) (hr : r ∈ reps)
    (hne : ∀ rec ∈ records, rec.CHROM ≠ "") (hch : Chunked records)
    (hor : ∀ c n, 0 < n → oracle c n < n) :
    (∀ j (hj : j < (select_random_snps records reps oracle r).length)
        (hj' : j < (contigsOf records).length),
        (select_random_snps records reps oracle r).get ⟨j, hj⟩
          ∈ lociOfContig records ((contigsOf records).get ⟨j, hj'⟩)) ∧
    (∀ j (hj : j < (select_random_snps records reps oracle r).length)
        (hj' : j < (contigsOf records).length) (k : String),
        lociOfContig records ((contigsOf records).get ⟨j, hj'⟩) = [k] →
        (select_random_snps records reps oracle r).get ⟨j, hj⟩ = k) := by
  obtain ⟨h1, h2⟩ := select_random_snps_spec records reps oracle r hnd hr hne hch hor
  have hmem : ∀ j (hj : j < (select_random_snps records reps oracle r).length)
      (hj' : j < (contigsOf records).length),
      (select_random_snps records reps oracle r).get ⟨j, hj⟩
        ∈ lociOfContig records ((contigsOf records).get ⟨j, hj'⟩) := by
    intro j hj hj'
    have := h2 j hj
    rw [List.getD_eq_getElem _ _ hj'] at this
    rw [List.get_eq_getElem] at this
    rw [List.get_eq_getElem, List.get_eq_getElem]
    exact this
  refine ⟨hmem, ?_⟩
  intro j hj hj' k hk
  have := hmem j hj hj'
  rw [hk] at this
  simpa using this

/-- Witness for C3: the second contig has exactly one locus, which is
deterministically selected for both replicates. -/
theorem select_random_snps_members_witness :
    (∀ j (hj : j < (select_random_snps
        [⟨"c2", 3, fun _ => none⟩, ⟨"c1", 5, fun _ => none⟩, ⟨"c1", 7, fun _ => none⟩]
        ["a", "b"] (fun _ n => n - 1) "b").length)
        (hj' : j < (contigsOf
          [⟨"c2", 3, fun _ => none⟩, ⟨"c1", 5, fun _ => none⟩,
            ⟨"c1", 7, fun _ => none⟩]).length),
        (select_random_snps
            [⟨"c2", 3, fun _ => none⟩, ⟨"c1", 5, fun _ => none⟩, ⟨"c1", 7, fun _ => none⟩]
            ["a", "b"] (fun _ n => n - 1) "b").get ⟨j, hj⟩
          ∈ lociOfContig
              [⟨"c2", 3, fun _ => none⟩, ⟨"c1", 5, fun _ => none⟩, ⟨"c1", 7, fun _ => none⟩]
              ((contigsOf
                [⟨"c2", 3, fun _ => none⟩, ⟨"c1", 5, fun _ => none⟩,
                  ⟨"c1", 7, fun _ => none⟩]).get ⟨j, hj'⟩)) ∧
    (∀ j (hj : j < (select_random_snps
        [⟨"c2", 3, fun _ => none⟩, ⟨"c1", 5, fun _ => none⟩, ⟨"c1", 7, fun _ => none⟩]
        ["a", "b"] (fun _ n => n - 1) "b").length)
        (hj' : j < (contigsOf
          [⟨"c2", 3, fun _ => none⟩, ⟨"c1", 5, fun _ => none⟩,
            ⟨"c1", 7, fun _ => none⟩]).length) (k : String),
        lociOfContig
            [⟨"c2", 3, fun _ => none⟩, ⟨"c1", 5, fun _ => none⟩, ⟨"c1", 7, fun _ => none⟩]
            ((contigsOf
              [⟨"c2", 3, fun _ => none⟩, ⟨"c1", 5, fun _ => none⟩,
                ⟨"c1", 7, fun _ => none⟩]).get ⟨j, hj'⟩) = [k] →
        (select_random_snps
            [⟨"c2", 3, fun _ => none⟩, ⟨"c1", 5, fun _ => none⟩, ⟨"c1", 7, fun _ => none⟩]
            ["a", "b"] (fun _ n => n - 1) "b").get ⟨j, hj⟩ = k) :=
  select_random_snps_members
    [⟨"c2", 3, fun _ => none⟩, ⟨"c1", 5, fun _ => none⟩, ⟨"c1", 7, fun _ => none⟩]
    ["a", "b"] (fun _ n => n - 1) "b" (by decide) (by decide)
    (by
      rintro rec hrec
      simp only [List.mem_cons, List.not_mem_nil, or_false] at hrec
      rcases hrec with rfl | rfl | rfl <;> decide)
    (by simp only [Chunked]; decide) (fun _ n h => Nat.sub_lt h (by decide))

theorem firstSeen_append_singleton (u : List String) (y : String) :
    firstSeen (u ++ [y])
      = if y ∈ firstSeen u then firstSeen u else firstSeen u ++ [y] := by
  rw [firstSeen, firstSeen, List.foldl_append]
  rfl

/-- C4: on success, the Format Encoder emits, per individual in lexicographic
(code-point) order of identifier, exactly two lines sharing the 1-based
individual index `i + 1` (the rank in sorted order) and a 1-based population
index equal to the position of the individual's population in the first-seen
sequence of populations up to that individual (so the first individual of a
new population receives the next unused index), with the two allele-code
sequences covering exactly the selected loci in variant-stream order. -/
theorem generate_structure_file_spec (records : List VcfRecord)
    (selected_snps : String → List String) (indvsPops : List (String × String))
    (rep : String) (L : List (Nat × Nat × List String))
    (hkn : (indvsPops.map Prod.fst).Nodup)
    (hres : generate_structure_file records selected_snps indvsPops rep = some L) :
    (sortedKeys indvsPops).Sorted pyLe ∧
    (sortedKeys indvsPops).Perm (indvsPops.map Prod.fst) ∧
    L.length = 2 * indvsPops.length ∧
    ∀ i (hi : i < (sortedKeys indvsPops).length),
      ∃ gps,
        convAll ((sortedKeys indvsPops).getD i "")
            (records.filter (fun rec' => snpKey rec' ∈ selected_snps rep)) = some gps ∧
        L.getD (2*i) (0, 0, [])
          = (i + 1,
              (firstSeen (((sortedKeys indvsPops).take (i+1)).map
                  (lookupPop indvsPops))).indexOf
                (lookupPop indvsPops ((sortedKeys indvsPops).getD i "")) + 1,
              gps.map Prod.fst) ∧
        L.getD (2*i+1) (0, 0, [])
          = (i + 1,
              (firstSeen (((sortedKeys indvsPops).take (i+1)).map
                  (lookupPop indvsPops))).indexOf
                (lookupPop indvsPops ((sortedKeys indvsPops).getD i "")) + 1,
              gps.map Prod.snd) ∧
        (lookupPop indvsPops ((sortedKeys indvsPops).getD i "")
            ∉ firstSeen (((sortedKeys indvsPops).take i).map (lookupPop indvsPops)) →
          (L.getD (2*i) (0, 0, [])).2.1
            = (firstSeen (((sortedKeys indvsPops).take i).map
                (lookupPop indvsPops))).length + 1) := by
  have hsorted : (sortedKeys indvsPops).Sorted pyLe :=
    List.sorted_insertionSort pyLe _
  have hperm : (sortedKeys indvsPops).Perm (indvsPops.map Prod.fst) :=
    List.perm_insertionSort pyLe _
  rw [generate_structure_file] at hres
  cases hbg : buildGenotypes records (selected_snps rep) (indvsPops.map Prod.fst) with
  | none => rw [hbg] at hres; cases hres
  | some d =>
    rw [hbg] at hres
    have hL : L = outputGo (lookupPop indvsPops) d (sortedKeys indvsPops) [] 1 :=
      (Option.some.injEq _ _ ▸ hres).symm
    refine ⟨hsorted, hperm, ?_, ?_⟩
    · rw [hL, outputGo_length]
      rw [show (sortedKeys indvsPops).length = (indvsPops.map Prod.fst).length
          from hperm.length_eq, List.length_map]
    · intro i hi
      have hindiv : (sortedKeys indvsPops).getD i "" ∈ indvsPops.map Prod.fst := by
        rw [List.getD_eq_getElem _ _ hi]
        exact hperm.mem_iff.mp (List.getElem_mem hi)
      obtain ⟨gps, hconv, hd⟩ := buildGenotypesGo_mem (selected_snps rep)
        (indvsPops.map Prod.fst) hkn records init_genotype_dict d hbg
        ((sortedKeys indvsPops).getD i "") hindiv
      have hdi : d ((sortedKeys indvsPops).getD i "")
          = (gps.map Prod.fst, gps.map Prod.snd) := by
        rw [hd]
        rfl
      obtain ⟨hg1, hg2⟩ := outputGo_get (lookupPop indvsPops) d
        (sortedKeys indvsPops) [] 1 i hi
      refine ⟨gps, hconv, ?_, ?_, ?_⟩
      · rw [hL, hg1, hdi, ← firstSeen_eq_popsAcc]
        simp [Nat.add_comm]
      · rw [hL, hg2, hdi, ← firstSeen_eq_popsAcc]
        simp [Nat.add_comm]
      · intro hnew
        rw [hL, hg1]
        have htake : (sortedKeys indvsPops).take (i+1)
            = (sortedKeys indvsPops).take i ++ [(sortedKeys indvsPops).getD i ""] := by
          rw [List.take_succ, List.getD_eq_getElem _ _ hi,
            List.getElem?_eq_getElem hi]
          rfl
        rw [← firstSeen_eq_popsAcc, htake, List.map_append, List.map_singleton,
          firstSeen_append_singleton, if_neg hnew,
          indexOf_append_singleton _ _ hnew]

/-- Witness for C4: three individuals in two populations, one selected
locus; the encoder output is computed concretely. -/
theorem generate_structure_file_spec_witness :
    (sortedKeys [("b", "P2"), ("a", "P1"), ("c", "P1")]).Sorted pyLe ∧
    (sortedKeys [("b", "P2"), ("a", "P1"), ("c", "P1")]).Perm
      ([("b", "P2"), ("a", "P1"), ("c", "P1")].map Prod.fst) ∧
    ([((1:Nat), (1:Nat), ["10"]), (1, 1, ["11"]), (2, 2, ["10"]), (2, 2, ["11"]),
        (3, 1, ["10"]), (3, 1, ["11"])] : List (Nat × Nat × List String)).length
      = 2 * ([("b", "P2"), ("a", "P1"), ("c", "P1")] : List (String × String)).length ∧
    ∀ i (hi : i < (sortedKeys [("b", "P2"), ("a", "P1"), ("c", "P1")]).length),
      ∃ gps,
        convAll ((sortedKeys [("b", "P2"), ("a", "P1"), ("c", "P1")]).getD i "")
            ([⟨"c1", 5, fun _ => some "A/T"⟩].filter
              (fun rec' => snpKey rec' ∈ (fun _ => ["c1_5"] : String → List String) "rep"))
          = some gps ∧
        ([((1:Nat), (1:Nat), ["10"]), (1, 1, ["11"]), (2, 2, ["10"]), (2, 2, ["11"]),
            (3, 1, ["10"]), (3, 1, ["11"])] : List (Nat × Nat × List String)).getD
            (2*i) (0, 0, [])
          = (i + 1,
              (firstSeen (((sortedKeys [("b", "P2"), ("a", "P1"), ("c", "P1")]).take
                  (i+1)).map
                  (lookupPop [("b", "P2"), ("a", "P1"), ("c", "P1")]))).indexOf
                (lookupPop [("b", "P2"), ("a", "P1"), ("c", "P1")]
                  ((sortedKeys [("b", "P2"), ("a", "P1"), ("c", "P1")]).getD i "")) + 1,
              gps.map Prod.fst) ∧
        ([((1:Nat), (1:Nat), ["10"]), (1, 1, ["11"]), (2, 2, ["10"]), (2, 2, ["11"]),
            (3, 1, ["10"]), (3, 1, ["11"])] : List (Nat × Nat × List String)).getD
            (2*i+1) (0, 0, [])
          = (i + 1,
              (firstSeen (((sortedKeys [("b", "P2"), ("a", "P1"), ("c", "P1")]).take
                  (i+1)).map
                  (lookupPop [("b", "P2"), ("a", "P1"), ("c", "P1")]))).indexOf
                (lookupPop [("b", "P2"), ("a", "P1"), ("c", "P1")]
                  ((sortedKeys [("b", "P2"), ("a", "P1"), ("c", "P1")]).getD i "")) + 1,
              gps.map Prod.snd) ∧
        (lookupPop [("b", "P2"), ("a", "P1"), ("c", "P1")]
            ((sortedKeys [("b", "P2"), ("a", "P1"), ("c", "P1")]).getD i "")
            ∉ firstSeen (((sortedKeys [("b", "P2"), ("a", "P1"), ("c", "P1")]).take i).map
                (lookupPop [("b", "P2"), ("a", "P1"), ("c", "P1")])) →
          (([((1:Nat), (1:Nat), ["10"]), (1, 1, ["11"]), (2, 2, ["10"]), (2, 2, ["11"]),
              (3, 1, ["10"]), (3, 1, ["11"])] : List (Nat × Nat × List String)).getD
              (2*i) (0, 0, [])).2.1
            = (firstSeen (((sortedKeys [("b", "P2"), ("a", "P1"), ("c", "P1")]).take i).map
                (lookupPop [("b", "P2"), ("a", "P1"), ("c", "P1")]))).length + 1) :=
  generate_structure_file_spec [⟨"c1", 5, fun _ => some "A/T"⟩]
    (fun _ => ["c1_5"]) [("b", "P2"), ("a", "P1"), ("c", "P1")] "rep"
    [(1, 1, ["10"]), (1, 1, ["11"]), (2, 2, ["10"]), (2, 2, ["11"]),
      (3, 1, ["10"]), (3, 1, ["11"])]
    (by decide) rfl

theorem convAll_length (i : String) :
    ∀ (l : List VcfRecord) (gps : List (String × String)),
    convAll i l = some gps → gps.length = l.length := by
  intro l
  induction l with
  | nil =>
    intro gps h
    rw [convAll] at h
    cases h
    rfl
  | cons rec' rest ih =>
    intro gps h
    rw [convAll] at h
    cases hc : get_structure_genotype (rec'.genotypes i) with
    | none => rw [hc] at h; cases h
    | some p =>
      rw [hc] at h
      cases hrest : convAll i rest with
      | none => rw [hrest] at h; cases h
      | some ps =>
        rw [hrest] at h
        cases h
        simp [ih ps hrest]

theorem outputGo_mem_codes (pop : String → String)
    (d : String → List String × List String) :
    ∀ (l pops : List String) (n : Nat) (line : Nat × Nat × List String),
    line ∈ outputGo pop d l pops n →
    ∃ indiv ∈ l, line.2.2 = (d indiv).1 ∨ line.2.2 = (d indiv).2 := by
  intro l
  induction l with
  | nil => intro pops n line h; cases h
  | cons x rest ih =>
    intro pops n line h
    rw [outputGo] at h
    rcases List.mem_cons.mp h with rfl | h'
    · exact ⟨x, List.mem_cons_self _ _, Or.inl rfl⟩
    · rcases List.mem_cons.mp h' with rfl | h''
      · exact ⟨x, List.mem_cons_self _ _, Or.inr rfl⟩
      · obtain ⟨indiv, hmem, hcase⟩ := ih _ _ line h''
        exact ⟨indiv, List.mem_cons_of_mem _ hmem, hcase⟩

theorem filter_key_length (records : List VcfRecord) (S : List String)
    (hkeys : (records.map snpKey).Nodup) (hS : S.Nodup)
    (hsub : ∀ s ∈ S, s ∈ records.map snpKey) :
    (records.filter (fun rec' => snpKey rec' ∈ S)).length = S.length := by
  have hperm : ((records.map snpKey).filter (fun k => k ∈ S)).Perm S := by
    rw [List.perm_ext_iff_of_nodup (hkeys.filter _) hS]
    intro a
    simp only [List.mem_filter, decide_eq_true_eq]
    constructor
    · rintro ⟨_, ha⟩; exact ha
    · intro ha; exact ⟨hsub a ha, ha⟩
  have hlen := hperm.length_eq
  rw [List.filter_map, List.length_map] at hlen
  simpa [Function.comp] using hlen

theorem select_random_snps_keys (records : List VcfRecord)
    (reps : List String) (oracle : Nat → Nat → Nat) (r : String)
    (hnd : reps.Nodup) (hr : r ∈ reps)
    (hne : ∀ rec ∈ records, rec.CHROM ≠ "") (hch : Chunked records)
    (hor : ∀ c n, 0 < n → oracle c n < n) :
    (select_random_snps records reps oracle r).Nodup ∧
    ∀ k ∈ select_random_snps records reps oracle r, k ∈ records.map snpKey := by
  obtain ⟨hlen, hmem⟩ := select_random_snps_spec records reps oracle r hnd hr hne hch hor
  have hsub : ∀ k ∈ select_random_snps records reps oracle r, k ∈ records.map snpKey := by
    intro k hk
    obtain ⟨⟨j, hj⟩, hget⟩ := List.mem_iff_get.mp hk
    have := hmem j hj
    rw [hget] at this
    rw [lociOfContig] at this
    obtain ⟨rec', hrec', hkey⟩ := List.mem_map.mp this
    exact List.mem_map.mpr ⟨rec', List.mem_of_mem_filter hrec', hkey⟩
  refine ⟨?_, hsub⟩
  rw [List.nodup_iff_injective_get]
  rintro ⟨i, hi⟩ ⟨j, hj⟩ hij
  have hic : i < (contigsOf records).length := by omega
  have hjc : j < (contigsOf records).length := by omega
  have hmi := hmem i hi
  have hmj := hmem j hj
  rw [hij] at hmi
  rw [lociOfContig] at hmi hmj
  obtain ⟨rec₁, hrec₁, hkey₁⟩ := List.mem_map.mp hmi
  obtain ⟨rec₂, hrec₂, hkey₂⟩ := List.mem_map.mp hmj
  have hc₁ : rec₁.CHROM = (contigsOf records).getD i "" := by
    have := List.mem_filter.mp hrec₁
    simpa using this.2
  have hc₂ : rec₂.CHROM = (contigsOf records).getD j "" := by
    have := List.mem_filter.mp hrec₂
    simpa using this.2
  have hkk : snpKey rec₁ = snpKey rec₂ := hkey₁.trans hkey₂.symm
  have hcc := (snpKey_inj hkk).1
  have hgd : (contigsOf records).getD i "" = (contigsOf records).getD j "" := by
    rw [← hc₁, ← hc₂, hcc]
  rw [List.getD_eq_getElem _ _ hic, List.getD_eq_getElem _ _ hjc] at hgd
  have hij' : i = j := by
    have hchn : (contigsOf records).Nodup := hch
    exact (List.Nodup.getElem_inj_iff hchn).mp hgd
  exact Fin.ext hij'

/-- C10: every replicate's selected-locus list has the same length (one per
contig transition of the stream), and on a successfully encoded replicate
file every line carries exactly that many allele codes. -/
theorem select_random_snps_uniform_length (records : List VcfRecord)
    (reps : List String) (oracle : Nat → Nat → Nat) (r₁ r₂ : String)
    (hnd : reps.Nodup) (h1 : r₁ ∈ reps) (h2 : r₂ ∈ reps) :
    (select_random_snps records reps oracle r₁).length
        = (select_random_snps records reps oracle r₂).length ∧
    ∀ (indvsPops : List (String × String)) (L : List (Nat × Nat × List String))
      (rep : String), rep ∈ reps →
      (∀ rec ∈ records, rec.CHROM ≠ "") → Chunked records →
      (∀ c n, 0 < n → oracle c n < n) → (records.map snpKey).Nodup →
      (indvsPops.map Prod.fst).Nodup →
      generate_structure_file records (select_random_snps records reps oracle)
          indvsPops rep = some L →
      ∀ line ∈ L, line.2.2.length
        = (select_random_snps records reps oracle r₁).length := by
  have hlen : ∀ s ∈ reps, (select_random_snps records reps oracle s).length
      = flushCount records "" := by
    intro s hs
    have := selectGo_length reps oracle hnd records (fun _ => []) [] "" 0 s hs
    simpa [select_random_snps] using this
  constructor
  · rw [hlen r₁ h1, hlen r₂ h2]
  · intro indvsPops L rep hrep hne hch hor hkeys hkn hres line hline
    rw [generate_structure_file] at hres
    cases hbg : buildGenotypes records (select_random_snps records reps oracle rep)
        (indvsPops.map Prod.fst) with
    | none => rw [hbg] at hres; cases hres
    | some d =>
      rw [hbg] at hres
      have hL : L = outputGo (lookupPop indvsPops) d (sortedKeys indvsPops) [] 1 :=
        (Option.some.injEq _ _ ▸ hres).symm
      rw [hL] at hline
      obtain ⟨indiv, hindiv, hcase⟩ := outputGo_mem_codes _ _ _ _ _ _ hline
      have hindiv' : indiv ∈ indvsPops.map Prod.fst :=
        (List.perm_insertionSort pyLe _).mem_iff.mp hindiv
      obtain ⟨gps, hconv, hd⟩ :=
        buildGenotypesGo_mem _ _ hkn records _ d hbg indiv hindiv'
      obtain ⟨hsnodup, hssub⟩ := select_random_snps_keys records reps oracle rep
        hnd hrep hne hch hor
      have hfleng : (records.filter (fun rec' =>
          snpKey rec' ∈ select_random_snps records reps oracle rep)).length
          = (select_random_snps records reps oracle rep).length :=
        filter_key_length records _ hkeys hsnodup hssub
      have hglen : gps.length = (select_random_snps records reps oracle rep).length := by
        rw [convAll_length indiv _ gps hconv]
        exact hfleng
      have hrepr1 : (select_random_snps records reps oracle rep).length
          = (select_random_snps records reps oracle r₁).length := by
        rw [hlen rep hrep, hlen r₁ h1]
      rcases hcase with hcc | hcc <;> rw [hcc, hd] <;>
        simp [init_genotype_dict, hglen, hrepr1]

/-- Witness for C10: two replicates over a three-record stream; both
selections have length 1 and both encoded lines carry one allele code. -/
theorem select_random_snps_uniform_length_witness :
    (select_random_snps
        [⟨"c1", 5, fun _ => some "A/T"⟩, ⟨"c1", 7, fun _ => some "A/T"⟩,
          ⟨"c2", 3, fun _ => some "A/T"⟩] ["a", "b"] (fun _ _ => 0) "a").length
      = (select_random_snps
          [⟨"c1", 5, fun _ => some "A/T"⟩, ⟨"c1", 7, fun _ => some "A/T"⟩,
            ⟨"c2", 3, fun _ => some "A/T"⟩] ["a", "b"] (fun _ _ => 0) "b").length ∧
    ∀ line ∈ ([((1:Nat), (1:Nat), ["10"]), (1, 1, ["11"])] :
        List (Nat × Nat × List String)),
      line.2.2.length = (select_random_snps
        [⟨"c1", 5, fun _ => some "A/T"⟩, ⟨"c1", 7, fun _ => some "A/T"⟩,
          ⟨"c2", 3, fun _ => some "A/T"⟩] ["a", "b"] (fun _ _ => 0) "a").length :=
  ⟨(select_random_snps_uniform_length
      [⟨"c1", 5, fun _ => some "A/T"⟩, ⟨"c1", 7, fun _ => some "A/T"⟩,
        ⟨"c2", 3, fun _ => some "A/T"⟩] ["a", "b"] (fun _ _ => 0) "a" "b"
      (by decide) (by decide) (by decide)).1,
   (select_random_snps_uniform_length
      [⟨"c1", 5, fun _ => some "A/T"⟩, ⟨"c1", 7, fun _ => some "A/T"⟩,
        ⟨"c2", 3, fun _ => some "A/T"⟩] ["a", "b"] (fun _ _ => 0) "a" "b"
      (by decide) (by decide) (by decide)).2
    [("i1", "P1")] [(1, 1, ["10"]), (1, 1, ["11"])] "a" (by decide)
    (by
      rintro rec hrec
      simp only [List.mem_cons, List.not_mem_nil, or_false] at hrec
      rcases hrec with rfl | rfl | rfl <;> decide)
    (by simp only [Chunked]; decide) (fun _ _ h => h) (by decide) (by decide) rfl⟩
